import Mathlib

set_option maxRecDepth 100000

/-!
# Verification of the hopkins-matt/r1-creations camera app and profanity filter

This file gives a shallow embedding of the response-normalization and capture
state-machine layer of the "sleuth" camera app (`src/sleuth/js/app.js`) and of
the `ProfanityFilter` module of the cyberdeck-ideas app, and proves/refutes the
frozen behavioural claims about them.

Conventions of the embedding:
* JavaScript values reachable through the plugin-message bridge are modelled by
  the JSON-like sum type `JValue`.  JSON numbers are kept as a decimal mantissa
  and a base-10 exponent (`JValue.num m e`, denoting `m * 10^e`); no claim
  observes the numeric value of a number, only its truthiness.
* Fallible operations (`JSON.parse`, `atob`) return `Option`.
* The DOM is modelled by record fields recording what each screen would
  render (`textContent` writes); logging (`dbg*`, `console.log`) is dropped,
  as are the purely diagnostic fields of a request (id, timestamps, lengths),
  which never influence control flow.
-/

/-! ## JavaScript string primitives -/

/-- JavaScript `\s` / `trim` whitespace (the common members; exotic Unicode
space characters that never appear in the claims are omitted). -/
def isJsWs (c : Char) : Bool :=
  c = ' ' || c = '\t' || c = '\n' || c = '\r' || c = '\x0b' || c = '\x0c' ||
  c.val.toNat = 0xA0 || c.val.toNat = 0xFEFF

/-- JavaScript `String.prototype.trim`. -/
def jsTrim (s : String) : String :=
  ⟨((s.toList.dropWhile isJsWs).reverse.dropWhile isJsWs).reverse⟩

/-- JavaScript `String.prototype.toLowerCase` (ASCII range). -/
def jsLower (s : String) : String := ⟨s.toList.map Char.toLower⟩

/-- JavaScript `String.prototype.toUpperCase` (ASCII range). -/
def jsUpper (s : String) : String := ⟨s.toList.map Char.toUpper⟩

/-- JavaScript `String.prototype.includes` (substring test). -/
def strIncludes (hay needle : String) : Bool :=
  (hay.toList.tails).any (fun t => needle.toList.isPrefixOf t)

/-- JavaScript `String.prototype.length`: the number of UTF-16 code units. -/
def utf16Len (s : String) : Nat :=
  (s.toList.map (fun c => if 0x10000 ≤ c.val.toNat then 2 else 1)).sum

/-- JavaScript `String.prototype.startsWith`. -/
def strStartsWith (s pre : String) : Bool := pre.toList.isPrefixOf s.toList

/-! ## JSON-like values -/

/-- A JSON-like JavaScript value.  Object fields are kept in insertion order
(`Object.keys` order for the string keys produced by `JSON.parse`). -/
inductive JValue where
  | null : JValue
  | bool : Bool → JValue
  /-- a number, `m * 10^e` -/
  | num  : Int → Int → JValue
  | str  : String → JValue
  | arr  : List JValue → JValue
  | obj  : List (String × JValue) → JValue

/-- First binding of a key in an object's field list (JSON.parse collapses
duplicate keys, so field lists coming from the parser have unique keys). -/
def lookupField (fs : List (String × JValue)) (k : String) : Option JValue :=
  (fs.find? (fun p => p.1 == k)).map (·.2)

/-- JavaScript property read `v[k]` (`none` = `undefined`).  Arrays and
primitives own none of the (non-index) properties the app ever reads. -/
def objGet (v : JValue) (k : String) : Option JValue :=
  match v with
  | .obj fs => lookupField fs k
  | _ => none

/-- JavaScript truthiness of a value. -/
def jsTruthy (v : JValue) : Bool :=
  match v with
  | .null => false
  | .bool b => b
  | .num m _ => m ≠ 0
  | .str s => s ≠ ""
  | .arr _ => true
  | .obj _ => true

/-- `a || b` on values, with `none` = `undefined` (falsy). -/
def jsOrJ (a : Option JValue) (b : JValue) : JValue :=
  match a with
  | some x => if jsTruthy x then x else b
  | none => b

/-- A chain `a || b || ... || last` (the last entry is the final operand). -/
def jsOrChain : List (Option JValue) → JValue
  | [] => .str ""
  | [a] => jsOrJ a (.str "")
  | a :: rest => match a with
    | some x => if jsTruthy x then x else jsOrChain rest
    | none => jsOrChain rest

/-- The decimal digit character for `n % 10`. -/
def digitChar (n : Nat) : Char :=
  match n % 10 with
  | 0 => '0' | 1 => '1' | 2 => '2' | 3 => '3' | 4 => '4'
  | 5 => '5' | 6 => '6' | 7 => '7' | 8 => '8' | _ => '9'

/-- Decimal digits of `n`, most significant first (fuel only serves
termination; `natToDecimal` supplies enough). -/
def natDigits : Nat → Nat → List Char
  | 0, _ => []
  | fuel + 1, n => if n < 10 then [digitChar n] else natDigits fuel (n / 10) ++ [digitChar n]

/-- Decimal rendering of a natural number. -/
def natToDecimal (n : Nat) : String := ⟨natDigits (n + 1) n⟩

/-- Decimal rendering of an integer. -/
def intToDecimal (i : Int) : String :=
  (if i < 0 then "-" else "") ++ natToDecimal i.natAbs

/-- Decimal rendering of `m * 10^e` (the shape `JSON.stringify` / `String()`
produce for the numbers that occur here). -/
def numToString (m e : Int) : String :=
  if 0 ≤ e then
    intToDecimal (m * (10 : Int) ^ e.toNat)
  else
    let k := (-e).toNat
    let n := m.natAbs
    let intPart := n / 10 ^ k
    let fracDigits :=
      ((natDigits (n % 10 ^ k + 1) (n % 10 ^ k)).reverse
        ++ List.replicate k '0').take k
        |>.dropWhile (· = '0') |>.reverse
    let core :=
      if fracDigits.isEmpty then natToDecimal intPart
      else natToDecimal intPart ++ "." ++ ⟨fracDigits⟩
    if m < 0 then "-" ++ core else core

mutual
/-- JavaScript `String(v)` coercion. -/
def jsToString : JValue → String
  | .null => "null"
  | .bool b => if b then "true" else "false"
  | .num m e => numToString m e
  | .str s => s
  | .arr xs => String.intercalate "," (jsToStringElems xs)
  | .obj _ => "[object Object]"

/-- Elements of `Array.prototype.join(',')`: `null` becomes the empty string. -/
def jsToStringElems : List JValue → List String
  | [] => []
  | .null :: xs => "" :: jsToStringElems xs
  | x :: xs => jsToString x :: jsToStringElems xs
end

/-! ## JSON.stringify -/

/-- Escape one character inside a JSON string literal. -/
def jsonEscChar (c : Char) : List Char :=
  if c = '"' then ['\\', '"']
  else if c = '\\' then ['\\', '\\']
  else if c = '\x08' then ['\\', 'b']
  else if c = '\t' then ['\\', 't']
  else if c = '\n' then ['\\', 'n']
  else if c = '\x0c' then ['\\', 'f']
  else if c = '\r' then ['\\', 'r']
  else if c.val.toNat < 0x20 then
    let hx := Nat.toDigits 16 c.val.toNat
    ['\\', 'u'] ++ List.replicate (4 - hx.length) '0' ++ hx
  else [c]

/-- JSON string literal for `s`. -/
def jsonQuote (s : String) : String :=
  ⟨'"' :: (s.toList.foldr (fun c acc => jsonEscChar c ++ acc) ['"'])⟩

mutual
/-- JavaScript `JSON.stringify` (compact form, no spacing arguments). -/
def jsonStringify : JValue → String
  | .null => "null"
  | .bool b => if b then "true" else "false"
  | .num m e => numToString m e
  | .str s => jsonQuote s
  | .arr xs => "[" ++ String.intercalate "," (jsonStringifyElems xs) ++ "]"
  | .obj fs => "\x7b" ++ String.intercalate "," (jsonStringifyFields fs) ++ "\x7d"

def jsonStringifyElems : List JValue → List String
  | [] => []
  | x :: xs => jsonStringify x :: jsonStringifyElems xs

def jsonStringifyFields : List (String × JValue) → List String
  | [] => []
  | (k, v) :: fs => (jsonQuote k ++ ":" ++ jsonStringify v) :: jsonStringifyFields fs
end

/-! ## JSON.parse -/

/-- Insignificant whitespace of the JSON grammar. -/
def jsonWs (c : Char) : Bool := c = ' ' || c = '\t' || c = '\n' || c = '\r'

def skipJsonWs (cs : List Char) : List Char := cs.dropWhile jsonWs

def hexVal (c : Char) : Option Nat :=
  let n := c.toNat
  if 48 ≤ n ∧ n ≤ 57 then some (n - 48)
  else if 97 ≤ n ∧ n ≤ 102 then some (n - 87)
  else if 65 ≤ n ∧ n ≤ 70 then some (n - 55)
  else none

/-- Add/overwrite an object field the way `JSON.parse` treats duplicate keys:
the later value wins but the key keeps its original position. -/
def insertField (fs : List (String × JValue)) (k : String) (v : JValue) :
    List (String × JValue) :=
  if (fs.find? (fun p => p.1 == k)).isSome then
    fs.map (fun p => if p.1 == k then (k, v) else p)
  else fs ++ [(k, v)]

/-- Parse the body of a JSON string literal (after the opening quote),
accumulating characters in reverse.  Surrogate pairs written with `\u` escapes
are combined; a lone surrogate degrades to `'\0'` (Lean `Char` cannot carry
it). -/
def pStrBody : Nat → List Char → List Char → Option (String × List Char)
  | 0, _, _ => none
  | fuel + 1, acc, cs =>
    match cs with
    | [] => none
    | '"' :: rest => some (⟨acc.reverse⟩, rest)
    | '\\' :: e :: rest =>
      match e with
      | '"' => pStrBody fuel ('"' :: acc) rest
      | '\\' => pStrBody fuel ('\\' :: acc) rest
      | '/' => pStrBody fuel ('/' :: acc) rest
      | 'b' => pStrBody fuel ('\x08' :: acc) rest
      | 'f' => pStrBody fuel ('\x0c' :: acc) rest
      | 'n' => pStrBody fuel ('\n' :: acc) rest
      | 'r' => pStrBody fuel ('\r' :: acc) rest
      | 't' => pStrBody fuel ('\t' :: acc) rest
      | 'u' =>
        match rest with
        | a :: b :: c :: d :: rest2 =>
          match hexVal a, hexVal b, hexVal c, hexVal d with
          | some ha, some hb, some hc, some hd =>
            let n := ((ha * 16 + hb) * 16 + hc) * 16 + hd
            if 0xD800 ≤ n && n ≤ 0xDBFF then
              match rest2 with
              | '\\' :: 'u' :: a2 :: b2 :: c2 :: d2 :: rest3 =>
                match hexVal a2, hexVal b2, hexVal c2, hexVal d2 with
                | some ha2, some hb2, some hc2, some hd2 =>
                  let n2 := ((ha2 * 16 + hb2) * 16 + hc2) * 16 + hd2
                  if 0xDC00 ≤ n2 && n2 ≤ 0xDFFF then
                    pStrBody fuel
                      (Char.ofNat (0x10000 + (n - 0xD800) * 0x400 + (n2 - 0xDC00)) :: acc)
                      rest3
                  else pStrBody fuel (Char.ofNat n :: acc) rest2
                | _, _, _, _ => pStrBody fuel (Char.ofNat n :: acc) rest2
              | _ => pStrBody fuel (Char.ofNat n :: acc) rest2
            else pStrBody fuel (Char.ofNat n :: acc) rest2
          | _, _, _, _ => none
        | _ => none
      | _ => none
    | c :: rest =>
      if c.val.toNat < 0x20 then none else pStrBody fuel (c :: acc) rest
termination_by structural fuel _ _ => fuel

/-- Consume a run of decimal digits, returning their value and count. -/
def pDigits : List Char → Nat → Nat → (Nat × Nat × List Char)
  | c :: cs, acc, cnt =>
    if c.isDigit then pDigits cs (acc * 10 + (c.toNat - '0'.toNat)) (cnt + 1)
    else (acc, cnt, c :: cs)
  | [], acc, cnt => (acc, cnt, [])

/-- Parse a JSON number (grammar of RFC 8259). -/
def pNum (cs : List Char) : Option (JValue × List Char) :=
  let (neg, cs1) := match cs with
    | '-' :: r => (true, r)
    | _ => (false, cs)
  match cs1 with
  | c :: r =>
    if c = '0' ∨ (c.isDigit ∧ c ≠ '0') then
      let (ip, _, r1) :=
        if c = '0' then ((0 : Nat), (1 : Nat), r) else pDigits (c :: r) 0 0
      -- fraction
      let (mant, fracLen, r2) :=
        match r1 with
        | '.' :: d :: r' =>
          if d.isDigit then
            let (f, n, r'') := pDigits (d :: r') 0 0
            (ip * 10 ^ n + f, n, some r'')
          else (ip, 0, none)
        | _ => (ip, 0, some r1)
      match r2 with
      | none => none
      | some r2 =>
        -- exponent
        let expPart : Option (Int × List Char) :=
          match r2 with
          | e :: r' =>
            if e = 'e' ∨ e = 'E' then
              match r' with
              | '+' :: d :: r'' =>
                if d.isDigit then
                  let (x, _, r3) := pDigits (d :: r'') 0 0
                  some ((x : Int), r3)
                else none
              | '-' :: d :: r'' =>
                if d.isDigit then
                  let (x, _, r3) := pDigits (d :: r'') 0 0
                  some (-(x : Int), r3)
                else none
              | d :: r'' =>
                if d.isDigit then
                  let (x, _, r3) := pDigits (d :: r'') 0 0
                  some ((x : Int), r3)
                else none
              | [] => none
            else some (0, r2)
          | [] => some (0, [])
        match expPart with
        | none => none
        | some (ex, r3) =>
          let m : Int := if neg then -(mant : Int) else (mant : Int)
          some (.num m (ex - (fracLen : Int)), r3)
    else none
  | [] => none

mutual
/-- Parse one JSON value (leading whitespace allowed). -/
def pVal : Nat → List Char → Option (JValue × List Char)
  | 0, _ => none
  | fuel + 1, cs =>
    match skipJsonWs cs with
    | 't' :: 'r' :: 'u' :: 'e' :: r => some (.bool true, r)
    | 'f' :: 'a' :: 'l' :: 's' :: 'e' :: r => some (.bool false, r)
    | 'n' :: 'u' :: 'l' :: 'l' :: r => some (.null, r)
    | '"' :: r => (pStrBody (fuel + 1) [] r).map (fun p => (.str p.1, p.2))
    | '[' :: r =>
      (match skipJsonWs r with
       | ']' :: r2 => some (.arr [], r2)
       | _ => pElems fuel r [])
    | '\x7b' :: r =>
      (match skipJsonWs r with
       | '\x7d' :: r2 => some (.obj [], r2)
       | _ => pFields fuel r [])
    | rest => pNum rest
termination_by structural fuel _ => fuel

/-- Parse array elements after `[` (at least one element). -/
def pElems : Nat → List Char → List JValue → Option (JValue × List Char)
  | 0, _, _ => none
  | fuel + 1, cs, acc =>
    match pVal fuel cs with
    | none => none
    | some (v, rest) =>
      match skipJsonWs rest with
      | ',' :: r2 => pElems fuel r2 (v :: acc)
      | ']' :: r2 => some (.arr (v :: acc).reverse, r2)
      | _ => none
termination_by structural fuel _ _ => fuel

/-- Parse object members after the opening brace (at least one member). -/
def pFields : Nat → List Char → List (String × JValue) →
    Option (JValue × List Char)
  | 0, _, _ => none
  | fuel + 1, cs, acc =>
    match skipJsonWs cs with
    | '"' :: r =>
      match pStrBody (fuel + 1) [] r with
      | none => none
      | some (k, r2) =>
        match skipJsonWs r2 with
        | ':' :: r3 =>
          match pVal fuel r3 with
          | none => none
          | some (v, r4) =>
            let acc2 := insertField acc k v
            match skipJsonWs r4 with
            | ',' :: r5 => pFields fuel r5 acc2
            | '\x7d' :: r5 => some (.obj acc2, r5)
            | _ => none
        | _ => none
    | _ => none
termination_by structural fuel _ _ => fuel
end

/-- JavaScript `JSON.parse`, `none` standing for a thrown `SyntaxError`. -/
def jsonParse (s : String) : Option JValue :=
  let cs := s.toList
  match pVal (2 * cs.length + 8) cs with
  | some (v, rest) => if skipJsonWs rest = [] then some v else none
  | none => none

/-! ## cleanJSONText / tryParseJSON (`src/sleuth/js/app.js` 402–431) -/

/-- `raw.replace(/^```json\s*/i, '')` — strip an opening ```json fence. -/
def stripFenceOpenJson (s : String) : String :=
  match s.toList with
  | '`' :: '`' :: '`' :: c1 :: c2 :: c3 :: c4 :: rest =>
    if c1.toLower = 'j' ∧ c2.toLower = 's' ∧ c3.toLower = 'o' ∧ c4.toLower = 'n'
    then ⟨rest.dropWhile isJsWs⟩ else s
  | _ => s

/-- `.replace(/^```\s*/i, '')` — strip an opening bare fence. -/
def stripFenceOpen (s : String) : String :=
  match s.toList with
  | '`' :: '`' :: '`' :: rest => ⟨rest.dropWhile isJsWs⟩
  | _ => s

/-- `.replace(/```\s*$/i, '')` — remove a closing fence followed only by
whitespace (the first — hence only possible — such occurrence). -/
def stripFenceClose (s : String) : String :=
  let r := s.toList.reverse.dropWhile isJsWs
  match r with
  | '`' :: '`' :: '`' :: before => ⟨before.reverse⟩
  | _ => s

/-- `cleanJSONText` — the three sequential replaces, then `.trim()`. -/
def cleanJSONText (raw : String) : String :=
  jsTrim (stripFenceClose (stripFenceOpen (stripFenceOpenJson raw)))

/-- `tryParseJSON` — parse the cleaned text; on failure, retry on the slice
from the first `{` to the last `}` (exclusive bounds check `end > start`). -/
def tryParseJSON (raw : String) : Option JValue :=
  let cleaned := cleanJSONText raw
  if cleaned = "" then none
  else
    match jsonParse cleaned with
    | some v => some v
    | none =>
      let cs := cleaned.toList
      match cs.findIdx? (· = '\x7b') with
      | none => none
      | some st =>
        match cs.reverse.findIdx? (· = '\x7d') with
        | none => none
        | some ridx =>
          let en := cs.length - 1 - ridx
          if st < en then jsonParse ⟨(cs.drop st).take (en + 1 - st)⟩ else none

/-! ## Payload recognition and extraction (`app.js` 433–503) -/

/-- Does `v` own `k` with a string value (`typeof v[k] === 'string'`)? -/
def hasStrField (v : JValue) (k : String) : Bool :=
  match objGet v k with
  | some (.str _) => true
  | _ => false

/-- `isResultPayload` — a non-null object exhibiting at least one of the six
expected result fields as a string.  (For non-objects every property read
yields `undefined`, so the disjunction is false just as in the source.) -/
def isResultPayload (v : JValue) : Bool :=
  hasStrField v "name" || hasStrField v "category" || hasStrField v "description" ||
  hasStrField v "fun_fact" || hasStrField v "reason" || hasStrField v "result"

/-- The wrapper keys `extractResultPayload` unwraps, in source order. -/
def wrapperKeys : List String :=
  ["data", "parsedData", "message", "response", "payload", "result", "output",
   "output_text", "content", "text", "llmResponse", "assistant"]

/-- First success of `g` over a list: the shape of the source's
`for ... { const nested = ...; if (nested) return nested; }` loops. -/
def firstSome (g : α → Option β) : List α → Option β
  | [] => none
  | x :: xs =>
    match g x with
    | some b => some b
    | none => firstSome g xs

/-- First non-empty string produced by `g` over a list. -/
def firstNonempty (g : α → String) : List α → String
  | [] => ""
  | x :: xs =>
    let t := g x
    if t ≠ "" then t else firstNonempty g xs

/-- `extractResultPayload(value, depth)` — bounded-depth structured
extraction.  The structural fuel argument only serves termination; the
wrapper `extractResultPayload` supplies `7`, which the `depth > 5` guard
keeps from ever running out (the recursion adds one to `depth` at each
level and stops at `depth > 5`). -/
def extractResultPayloadF : Nat → JValue → Nat → Option JValue
  | 0, _, _ => none
  | fuel + 1, v, depth =>
    if 5 < depth then none
    else
      match v with
      | .null => none
      | .str s =>
        (match tryParseJSON s with
         | some parsedString => extractResultPayloadF fuel parsedString (depth + 1)
         | none => none)
      | .arr items =>
        firstSome (fun item => extractResultPayloadF fuel item (depth + 1)) items
      | .bool _ => none
      | .num _ _ => none
      | .obj fields =>
        if isResultPayload (.obj fields) then some (.obj fields)
        else
          firstSome
            (fun k =>
              match lookupField fields k with
              | some w => extractResultPayloadF fuel w (depth + 1)
              | none => none)
            wrapperKeys

/-- `extractResultPayload(value, depth)` of the source. -/
def extractResultPayload (v : JValue) (depth : Nat) : Option JValue :=
  extractResultPayloadF 7 v depth

/-- The text-bearing keys scanned by `extractPlainText`, in source order. -/
def textKeys : List String :=
  ["data", "message", "response", "output", "content", "text", "output_text",
   "assistant", "answer", "reply", "transcript"]

/-- First text key owned with a string value whose trim is non-empty (the
first loop of `extractPlainText`). -/
def firstStrKey : List String → List (String × JValue) → String
  | [], _ => ""
  | k :: ks, fields =>
    match lookupField fields k with
    | some (.str s) => if jsTrim s ≠ "" then jsTrim s else firstStrKey ks fields
    | _ => firstStrKey ks fields

/-- `extractPlainText(value, depth)` — bounded-depth text extraction:
string-valued text keys first, then object-valued text keys recursively,
then the generic `Object.keys` walk.  Fuel as in `extractResultPayloadF`. -/
def extractPlainTextF : Nat → JValue → Nat → String
  | 0, _, _ => ""
  | fuel + 1, v, depth =>
    if 5 < depth then ""
    else
      match v with
      | .null => ""
      | .arr items =>
        firstNonempty (fun item => extractPlainTextF fuel item (depth + 1)) items
      | .str s => jsTrim s
      | .bool _ => ""
      | .num _ _ => ""
      | .obj fields =>
        let t1 := firstStrKey textKeys fields
        if t1 ≠ "" then t1
        else
          let t2 := firstNonempty
            (fun k =>
              match lookupField fields k with
              | some (.arr xs) => extractPlainTextF fuel (.arr xs) (depth + 1)
              | some (.obj fs) => extractPlainTextF fuel (.obj fs) (depth + 1)
              | _ => "")
            textKeys
          if t2 ≠ "" then t2
          else firstNonempty (fun p => extractPlainTextF fuel p.2 (depth + 1)) fields

/-- `extractPlainText(value, depth)` of the source. -/
def extractPlainText (v : JValue) (depth : Nat) : String :=
  extractPlainTextF 7 v depth

/-! ## Standard-mode fallback payloads (`app.js` 505–551) -/

/-- `normalizeStandardPayload` — coerce alternate field names into the four
fields the UI expects. -/
def normalizeStandardPayload (v : JValue) : Option JValue :=
  let isObjLike : Bool := match v with
    | .arr _ => true
    | .obj _ => true
    | _ => false
  if ¬isObjLike then none
  else
    let name := jsOrChain [objGet v "name", objGet v "object", objGet v "item", objGet v "title"]
    let category := jsOrChain [objGet v "category", objGet v "type"]
    let description := jsOrChain
      [objGet v "description", objGet v "summary", objGet v "details", objGet v "reason",
       some (match objGet v "result" with | some (.str t) => .str t | _ => .str "")]
    let fact := jsOrChain [objGet v "fun_fact", objGet v "fact", objGet v "trivia"]
    if jsTruthy name || jsTruthy category || jsTruthy description || jsTruthy fact then
      some (.obj
        [("name", .str (jsToString (if jsTruthy name then name else .str "Unknown"))),
         ("category", .str (jsToString (if jsTruthy category then category else .str ""))),
         ("description", .str (jsToString (if jsTruthy description then description else .str ""))),
         ("fun_fact", .str (jsToString (if jsTruthy fact then fact else .str "")))])
    else none

/-- `buildFallbackStandardPayload` — parse-and-normalize the text, else use it
verbatim as the description of an `Unknown` result. -/
def buildFallbackStandardPayload (rawText : String) : Option JValue :=
  let text := jsTrim rawText
  if text = "" then none
  else
    let normalized := match tryParseJSON text with
      | some parsed => normalizeStandardPayload parsed
      | none => none
    match normalized with
    | some n => some n
    | none =>
      some (.obj [("name", .str "Unknown"), ("category", .str ""),
                  ("description", .str text), ("fun_fact", .str "")])

/-- The stringify step of `getAnyTextFallback`: the compact JSON of the whole
inbound value, unless it is `{}` or `[]`. -/
def getAnyCompact (data : JValue) : String :=
  let compact := jsonStringify data
  if compact ≠ "" ∧ compact ≠ "\x7b\x7d" ∧ compact ≠ "[]" then compact else ""

/-- `getAnyTextFallback(data, preferred)`. -/
def getAnyTextFallback (data : JValue) (preferred : String) : String :=
  if jsTrim preferred ≠ "" then jsTrim preferred
  else
    match data with
    | .str s => if jsTrim s ≠ "" then jsTrim s else getAnyCompact data
    | _ => getAnyCompact data

/-! ## App state (`app.js` 19–43, 74–86, 153–185) -/

/-- The UI state enum `STATES`. -/
inductive UIState where
  | camera | analyzing | result | settings | hdCamera | hdAnalyzing | hdResult
deriving DecidableEq

/-- Request mode. -/
inductive Mode where
  | standard | hotdog
deriving DecidableEq

/-- The in-flight request created by `beginRequest`.  Its purely diagnostic
fields (id, startedAt, prompt/image lengths, voice flag) never influence
control flow and are omitted. -/
structure Request where
  mode : Mode
deriving DecidableEq

/-- The two persisted settings flags. -/
structure Settings where
  voice : Bool
  hotdog : Bool
deriving DecidableEq

/-- What the standard result screen renders (`showResult`'s `textContent`
writes and the category pill visibility). -/
structure StdRender where
  category : String
  name : String
  description : String
  funFact : String
  categoryVisible : Bool
deriving DecidableEq

/-- What the hot-dog result screen renders (`showHotdogResult`). -/
structure HdRender where
  icon : String
  verdict : String
  reason : String
deriving DecidableEq

/-- The mutable process state of the camera app: the state machine variable,
the watchdog timer handle (modelled as "armed or not"), the single active
request, the settings, and the rendered surfaces (result screens, error
toast, device border color). -/
structure AppState where
  state : UIState
  resultPage : Nat
  llmTimer : Bool
  activeRequest : Option Request
  settings : Settings
  toast : Option String
  stdRender : Option StdRender
  hdRender : Option HdRender
  borderColor : String
deriving DecidableEq

/-- `setState` (`app.js` 726–777): record the new state, clear the watchdog
when the new state is not an analyzing one, reset the border color when
leaving the hot-dog result, and (implicitly — screen visibility is a function
of `state`) activate exactly one screen. -/
def setState (new : UIState) (s : AppState) : AppState :=
  { s with
    state := new,
    llmTimer := if new ≠ .analyzing ∧ new ≠ .hdAnalyzing then false else s.llmTimer,
    borderColor := if new ≠ .hdResult then "#000000" else s.borderColor }

/-- `showError` (`app.js` 989–997): show a transient toast. -/
def showError (msg : String) (s : AppState) : AppState :=
  { s with toast := some msg }

/-- `beginRequest` (`app.js` 153–173): create the single active request; its
mode is decided by the state at send time. -/
def beginRequest (s : AppState) : AppState :=
  let m : Mode := if s.state = .hdAnalyzing then .hotdog else .standard
  { s with activeRequest := some (Request.mk m) }

/-! ## Rendering the two result screens (`app.js` 671–720) -/

/-- The four `textContent` writes of `showResult`, with its `|| 'Unknown'` /
`|| ''` defaults (DOM assignment coerces values with `String()`). -/
def stdRenderOf (p : JValue) : StdRender :=
  let name := jsOrJ (objGet p "name") (.str "Unknown")
  let category := jsOrJ (objGet p "category") (.str "")
  let desc := jsOrJ (objGet p "description") (.str "")
  let fact := jsOrJ (objGet p "fun_fact") (.str "")
  { category := jsToString category
    name := jsToString name
    description := jsToString desc
    funFact := jsToString fact
    categoryVisible := jsTruthy category }

/-- `showResult`: render, reset to page 1, enter `result`. -/
def showResult (p : JValue) (s : AppState) : AppState :=
  setState .result { s with stdRender := some (stdRenderOf p), resultPage := 1 }

/-- `(parsed.result || '')` as the string `showHotdogResult` upper-cases.
Every call site has coerced `parsed.result` to a string beforehand (see
`hotdogCoerce`), so the non-string arm is unreachable there. -/
def hdResultString (p : JValue) : String :=
  match jsOrJ (objGet p "result") (.str "") with
  | .str t => t
  | _ => ""

/-- `isHotDog` of `showHotdogResult`. -/
def hdVerdictTrue (p : JValue) : Bool :=
  strIncludes (jsUpper (hdResultString p)) "HOT DOG" &&
  !(strIncludes (jsUpper (hdResultString p)) "NOT HOT DOG")

/-- `showHotdogResult`: render icon/verdict/reason, tint the border, enter
`hd-result` (entering `hd-result` keeps the tint). -/
def showHotdogResult (p : JValue) (s : AppState) : AppState :=
  let isHotDog := hdVerdictTrue p
  setState .hdResult
    { s with
      hdRender := some
        { icon := if isHotDog then "🌭" else "🚫"
          verdict := if isHotDog then "HOT DOG" else "NOT HOT DOG"
          reason := jsToString (jsOrJ (objGet p "reason") (.str "")) }
      borderColor := if isHotDog then "#22c55e" else "#ef4444" }

/-! ## handleLLMResponse (`app.js` 553–643) -/

/-- The `parsedData` unwrap at the top of `handleLLMResponse`: the property
is used only when owned and non-null (`parsedData != null`). -/
def pdOf (v : JValue) : Option JValue :=
  match v with
  | .obj fs =>
    (match lookupField fs "parsedData" with
     | some .null => none
     | some w => some w
     | none => none)
  | _ => none

/-- The value structured extraction and text extraction start from. -/
def hlBase (v : JValue) : JValue := (pdOf v).getD v

/-- `fallbackText`: plain text of the unwrapped value, or of the raw value. -/
def hlFallbackText (v : JValue) : String :=
  let a := extractPlainText (hlBase v) 0
  if a ≠ "" then a else extractPlainText v 0

/-- `isHotdogFlow`: analyzing in hot-dog mode, or the active request was
created in hot-dog mode. -/
def isHotdogFlowOf (s : AppState) : Bool :=
  s.state == .hdAnalyzing ||
    (match s.activeRequest with
     | some r => r.mode == Mode.hotdog
     | none => false)

/-- The hot-dog text fallback (`app.js` 574–583): synthesize a verdict from
the literal substring scan of the extracted text. -/
def synthHotdogFromText (t : String) : Option JValue :=
  let upper := jsUpper t
  if strIncludes upper "HOT DOG" then
    some (.obj
      [("result", .str (if strIncludes upper "NOT HOT DOG" then "NOT HOT DOG" else "HOT DOG")),
       ("reason", .str (if utf16Len t ≤ 200 then t else "Unable to classify."))])
  else none

/-- Structured extraction plus the mode-specific first fallbacks
(`app.js` 564–587). -/
def hlParsed (s : AppState) (v : JValue) : Option JValue :=
  match extractResultPayload (hlBase v) 0 with
  | some p => some p
  | none =>
    if isHotdogFlowOf s then synthHotdogFromText (hlFallbackText v)
    else buildFallbackStandardPayload (getAnyTextFallback v (hlFallbackText v))

/-- Adds the emergency stringify fallback (`app.js` 589–607): `none` means
the message is ignored outright. -/
def hlParsedWithEmergency (s : AppState) (v : JValue) : Option JValue :=
  match hlParsed s v with
  | some p => some p
  | none =>
    let em := getAnyTextFallback v (hlFallbackText v)
    if ¬isHotdogFlowOf s = true ∧ em ≠ "" then
      some (.obj [("name", .str "Unknown"), ("category", .str ""),
                  ("description", .str em), ("fun_fact", .str "")])
    else none

/-- `typeof parsed.result === 'string'`. -/
def resultFieldIsString (p : JValue) : Bool := hasStrField p "result"

/-- The standard-mode coercion step (`app.js` 613–615); `none` is the
`parse-error` outcome. -/
def hlCoerce (s : AppState) (v p : JValue) : Option JValue :=
  if ¬isHotdogFlowOf s = true ∧ ¬resultFieldIsString p = true then
    match normalizeStandardPayload p with
    | some q => some q
    | none => buildFallbackStandardPayload (getAnyTextFallback v (hlFallbackText v))
  else some p

/-- The hot-dog-mode coercion (`app.js` 630–636): guarantee `result` is a
string before rendering. -/
def hotdogCoerce (v p : JValue) (ft : String) : JValue :=
  if resultFieldIsString p then p
  else
    let maybeText := getAnyTextFallback v ft
    .obj
      [("result", .str (if strIncludes (jsUpper maybeText) "NOT HOT DOG" then "NOT HOT DOG" else "HOT DOG")),
       ("reason", .str (if maybeText ≠ "" then maybeText else "Unable to classify."))]

/-- `handleLLMResponse(data)`. -/
def handleLLMResponse (v : JValue) (s : AppState) : AppState :=
  let waiting := s.state == .analyzing || s.state == .hdAnalyzing
  if !waiting && s.activeRequest == none then s
  else
    match hlParsedWithEmergency s v with
    | none => s
    | some p =>
      let hot := isHotdogFlowOf s
      let s1 := { s with llmTimer := false }
      match hlCoerce s v p with
      | none =>
        setState .camera
          (showError "Could not read response — try again" { s1 with activeRequest := none })
      | some p2 =>
        if hot then
          showHotdogResult (hotdogCoerce v p2 (hlFallbackText v))
            { s1 with activeRequest := none }
        else
          showResult p2 { s1 with activeRequest := none }

/-! ## Send path and capture flow (`app.js` 260–322, 649–665) -/

/-- The environment a capture step runs against: is the host transport
object defined, does its `postMessage` throw synchronously, and does the
video element have a decoded frame (`captureFrame`'s result). -/
structure Env where
  pmhPresent : Bool
  postThrows : Bool
  frame : Option String
deriving DecidableEq

/-- `sendToLLM` (`app.js` 260–322).  In dev mode (no transport) a mock
response is scheduled asynchronously — that later delivery is an ordinary
`response` event — and no watchdog is armed.  On a synchronous post failure:
`endRequest`, toast, bounce back to the pre-capture camera variant.  On a
successful post the 20000 ms watchdog is armed. -/
def sendToLLM (env : Env) (s : AppState) : AppState :=
  let s := beginRequest s
  if ¬env.pmhPresent then s
  else if env.postThrows then
    setState (if s.state = .hdAnalyzing then .hdCamera else .camera)
      (showError "Request failed — try again" { s with activeRequest := none })
  else { s with llmTimer := true }

/-- `doCapture` (`app.js` 649–665). -/
def doCapture (env : Env) (s : AppState) : AppState :=
  let isHotdog := s.state = .hdCamera
  let s := setState (if isHotdog then .hdAnalyzing else .analyzing) s
  match env.frame with
  | none =>
    setState (if isHotdog then .hdCamera else .camera)
      (showError "Camera not ready — try again" s)
  | some _ => sendToLLM env s

/-- The watchdog callback (`app.js` 313–321): fires 20000 ms after a
successful post; if the app is still analyzing it surfaces an advisory toast
and nothing else — the request and timer state are untouched. -/
def watchdogFire (s : AppState) : AppState :=
  if s.state = .analyzing ∨ s.state = .hdAnalyzing then
    showError "Still waiting for response…" s
  else s

/-! ## Hardware / UI event dispatch (`app.js` 793–930) -/

/-- `returnToCamera`: the hot-dog settings flag picks the camera variant. -/
def returnToCamera (s : AppState) : AppState :=
  setState (if s.settings.hotdog then .hdCamera else .camera) s

/-- `closeSettings`. -/
def closeSettings (s : AppState) : AppState :=
  setState (if s.settings.hotdog then .hdCamera else .camera) s

/-- `showResultPage`. -/
def showResultPage (page : Nat) (s : AppState) : AppState :=
  { s with resultPage := page }

/-- `onSideClick`. -/
def onSideClick (env : Env) (s : AppState) : AppState :=
  match s.state with
  | .camera | .hdCamera => doCapture env s
  | .result => returnToCamera s
  | .hdResult => setState .hdCamera s
  | .settings => closeSettings s
  | _ => s

/-- `onLongPress` (the `longPressEnd` handler). -/
def onLongPress (s : AppState) : AppState :=
  match s.state with
  | .result | .hdResult => returnToCamera s
  | .settings => closeSettings s
  | _ => s

/-- `onScrollUp`. -/
def onScrollUp (s : AppState) : AppState :=
  match s.state with
  | .result => if s.resultPage = 2 then showResultPage 1 s else s
  | _ => s

/-- `onScrollDown`. -/
def onScrollDown (s : AppState) : AppState :=
  match s.state with
  | .result =>
    if s.resultPage = 1 then showResultPage 2 s
    else if s.resultPage = 2 then returnToCamera s
    else s
  | _ => s

/-- The events the process reacts to: the four hardware events (delivered in
any state — the handlers switch on `state` themselves), the five on-screen
buttons (each usable only while the screen owning it is active), an inbound
bridge message, and the watchdog callback.  Settings persistence on toggle is
modelled separately (`saveBlob`/`loadSettings`); it does not feed back into
the event loop. -/
inductive Ev where
  | sideClick | longPress | scrollUp | scrollDown
  | backButton | settingsButton | closeSettingsButton
  | voiceToggle | hotdogToggle
  | response (v : JValue)
  | watchdog

/-- One dispatch of an event against the current state. -/
def step (env : Env) (e : Ev) (s : AppState) : AppState :=
  match e with
  | .sideClick => onSideClick env s
  | .longPress => onLongPress s
  | .scrollUp => onScrollUp s
  | .scrollDown => onScrollDown s
  | .backButton => if s.state = .result then returnToCamera s else s
  | .settingsButton =>
    if s.state = .camera ∨ s.state = .hdCamera then setState .settings s else s
  | .closeSettingsButton => if s.state = .settings then closeSettings s else s
  | .voiceToggle =>
    if s.state = .settings then
      { s with settings := { s.settings with voice := !s.settings.voice } }
    else s
  | .hotdogToggle =>
    if s.state = .settings then
      { s with settings := { s.settings with hotdog := !s.settings.hotdog } }
    else s
  | .response v => handleLLMResponse v s
  | .watchdog => watchdogFire s

/-- The state right after `DOMContentLoaded`: camera state, no request, no
timer, settings as `loadSettings` left them. -/
def initState (voice hotdog : Bool) : AppState :=
  { state := .camera
    resultPage := 1
    llmTimer := false
    activeRequest := none
    settings := ⟨voice, hotdog⟩
    toast := none
    stdRender := none
    hdRender := none
    borderColor := "#000000" }

/-- States reachable from startup under any event sequence and environment. -/
inductive Reachable : AppState → Prop where
  | init (voice hotdog : Bool) : Reachable (initState voice hotdog)
  | next (env : Env) (e : Ev) {s : AppState} : Reachable s → Reachable (step env e s)

/-! ## Settings persistence (`app.js` 936–977) -/

def b64Alphabet : List Char :=
  "ABCDEFGHIJKLMNOPQRSTUVWXYZabcdefghijklmnopqrstuvwxyz0123456789+/".toList

def b64Char (n : Nat) : Char := b64Alphabet.getD n 'A'

def b64Val (c : Char) : Option Nat :=
  (b64Alphabet.findIdx? (· = c))

/-- Encode a byte list in base64 (grouped by 3, `=`-padded). -/
def b64EncodeBytes : List Nat → List Char
  | [] => []
  | [a] => [b64Char (a / 4), b64Char (a % 4 * 16), '=', '=']
  | [a, b] => [b64Char (a / 4), b64Char (a % 4 * 16 + b / 16), b64Char (b % 16 * 4), '=']
  | a :: b :: c :: rest =>
    [b64Char (a / 4), b64Char (a % 4 * 16 + b / 16),
     b64Char (b % 16 * 4 + c / 64), b64Char (c % 64)] ++ b64EncodeBytes rest

/-- `window.btoa`: `none` models the `InvalidCharacterError` thrown for
code points above U+00FF. -/
def btoaOpt (s : String) : Option String :=
  if s.toList.any (fun c => 256 ≤ c.val.toNat) then none
  else some ⟨b64EncodeBytes (s.toList.map (fun c => c.val.toNat))⟩

/-- Decode groups of base64 sextets into bytes (forgiving tail handling). -/
def b64DecodeGroups : List Nat → Option (List Nat)
  | [] => some []
  | [_] => none
  | [a, b] => some [a * 4 + b / 16]
  | [a, b, c] => some [a * 4 + b / 16, b % 16 * 16 + c / 4]
  | a :: b :: c :: d :: rest =>
    (b64DecodeGroups rest).map
      (fun bs => (a * 4 + b / 16) :: (b % 16 * 16 + c / 4) :: (c % 4 * 64 + d) :: bs)

/-- `window.atob` (the WHATWG forgiving-base64 decode): strip ASCII
whitespace, strip well-placed padding, reject anything else invalid. -/
def atobOpt (s : String) : Option String :=
  let cs := s.toList.filter
    (fun c => ¬(c = ' ' ∨ c = '\t' ∨ c = '\n' ∨ c = '\x0c' ∨ c = '\r'))
  let cs :=
    if cs.length % 4 = 0 then
      match cs.reverse with
      | '=' :: '=' :: r => r.reverse
      | '=' :: r => r.reverse
      | _ => cs
    else cs
  if cs.length % 4 = 1 then none
  else
    match (cs.map b64Val).allSome with
    | none => none
    | some vals => (b64DecodeGroups vals).map (fun bs => ⟨bs.map Char.ofNat⟩)

/-- `saveSettings` (`app.js` 964–977): the base64-encoded JSON blob written
under the storage key (`none` if `btoa` threw — then nothing is stored). -/
def saveBlob (st : Settings) : Option String :=
  btoaOpt (jsonStringify (.obj [("voice", .bool st.voice), ("hotdog", .bool st.hotdog)]))

def jsTruthyOpt (o : Option JValue) : Bool :=
  match o with
  | some x => jsTruthy x
  | none => false

/-- `loadSettings` (`app.js` 938–962): decode and parse the stored blob and
coerce the two flags with `!!`; any throw along the way (missing blob, bad
base64, bad JSON, member access on `null`) is caught and leaves the current
(default) settings untouched. -/
def loadSettings (stored : Option String) (cur : Settings) : Settings :=
  match stored with
  | none => cur
  | some raw =>
    if raw = "" then cur
    else
      match atobOpt raw with
      | none => cur
      | some dec =>
        match jsonParse dec with
        | none => cur
        | some sv =>
          match sv with
          | .null => cur
          | _ => { voice := jsTruthyOpt (objGet sv "voice"),
                   hotdog := jsTruthyOpt (objGet sv "hotdog") }

/-! ## ProfanityFilter (`src/unnamed/part_001` 31–128)

The filter compiles its patterns with `new RegExp`; the constructs those
patterns use are literals, character classes, `?`, `+`, `{m,}`, `{m,n}` and
`\b`, all under the `i` flag.  `rxMatch` below implements exactly that
subset with backtracking; `rxTest` is `RegExp.prototype.test` (match
anywhere). -/

/-- A single-character regex atom, or the zero-width `\b`. -/
inductive RAtom where
  | lit (c : Char)
  | cls (cs : List Char)
  | wordB
deriving DecidableEq

/-- A possibly-quantified atom. -/
inductive RPiece where
  | once (a : RAtom)
  | opt (a : RAtom)
  | star (a : RAtom)
  | plus (a : RAtom)
  | atLeast (a : RAtom) (m : Nat)
  | between (a : RAtom) (m n : Nat)
deriving DecidableEq

def digitsVal (ds : List Char) : Nat :=
  ds.foldl (fun n c => n * 10 + (c.toNat - '0'.toNat)) 0

mutual
/-- Compile a pattern string of the supported subset.  The fuel argument only
serves termination; `compilePat` supplies enough that it never runs out. -/
def compileRx : Nat → List Char → List RPiece
  | 0, _ => []
  | _, [] => []
  | fuel + 1, '\\' :: 'b' :: rest => .once .wordB :: compileRx fuel rest
  | fuel + 1, '\\' :: c :: rest => quantify fuel (.lit c) rest
  | fuel + 1, '[' :: rest =>
    let inside := rest.takeWhile (· ≠ ']')
    let after := (rest.dropWhile (· ≠ ']')).drop 1
    quantify fuel (.cls inside) after
  | fuel + 1, c :: rest => quantify fuel (.lit c) rest

/-- Attach a following quantifier, if any, to the atom just read. -/
def quantify : Nat → RAtom → List Char → List RPiece
  | 0, a, _ => [.once a]
  | fuel + 1, a, cs =>
    match cs with
    | '?' :: rest => .opt a :: compileRx fuel rest
    | '+' :: rest => .plus a :: compileRx fuel rest
    | '\x7b' :: rest =>
      let ds := rest.takeWhile Char.isDigit
      let r1 := rest.dropWhile Char.isDigit
      (match ds, r1 with
       | _ :: _, ',' :: '\x7d' :: r2 => .atLeast a (digitsVal ds) :: compileRx fuel r2
       | _ :: _, ',' :: r2 =>
         let ds2 := r2.takeWhile Char.isDigit
         let r3 := r2.dropWhile Char.isDigit
         (match ds2, r3 with
          | _ :: _, '\x7d' :: r4 =>
            .between a (digitsVal ds) (digitsVal ds2) :: compileRx fuel r4
          | _, _ => .once a :: .once (.lit '\x7b') :: compileRx fuel rest)
       | _ :: _, '\x7d' :: r2 => .between a (digitsVal ds) (digitsVal ds) :: compileRx fuel r2
       | _, _ => .once a :: .once (.lit '\x7b') :: compileRx fuel rest)
    | rest => .once a :: compileRx fuel rest
end

/-- Compile a pattern string (fuel amply covers every recursion step). -/
def compilePat (p : String) : List RPiece := compileRx (2 * p.length + 2) p.toList

/-- JS `\w`. -/
def isWordChar (c : Char) : Bool := c.isAlpha || c.isDigit || c = '_'

/-- Does the atom match this character (case-insensitively, the `i` flag)? -/
def atomFits (a : RAtom) (c : Char) : Bool :=
  match a with
  | .lit l => l.toLower = c.toLower
  | .cls cs => cs.any (fun l => l.toLower = c.toLower)
  | .wordB => false

/-- Word boundary between the previous character and the rest of the input. -/
def boundaryAt (prev : Option Char) (inp : List Char) : Bool :=
  let pw := match prev with
    | some c => isWordChar c
    | none => false
  let nw := match inp with
    | c :: _ => isWordChar c
    | [] => false
  pw ≠ nw

/-- Weight of a piece, for termination of the backtracking matcher. -/
@[simp] def pieceW : RPiece → Nat
  | .once _ => 1
  | .opt _ => 1
  | .star _ => 1
  | .plus _ => 2
  | .atLeast _ m => m + 2
  | .between _ m n => m + n + 1

/-- Backtracking matcher: can the pieces match a prefix of `inp` here
(`prev` is the character just before, for `\b`)?  The structural fuel
argument only serves termination; `rxTest` supplies enough for the longest
possible backtracking run, so it never runs out. -/
def rxMatch : Nat → List RPiece → List Char → Option Char → Bool
  | 0, _, _, _ => false
  | fuel + 1, ps, inp, prev =>
    match ps, inp with
    | [], _ => true
    | .once .wordB :: ps, inp => boundaryAt prev inp && rxMatch fuel ps inp prev
    | .once a :: ps, inp =>
      (match inp with
       | [] => false
       | c :: cs => atomFits a c && rxMatch fuel ps cs (some c))
    | .opt a :: ps, inp =>
      rxMatch fuel ps inp prev ||
        (match inp with
         | c :: cs => atomFits a c && rxMatch fuel ps cs (some c)
         | [] => false)
    | .star a :: ps, inp =>
      rxMatch fuel ps inp prev ||
        (match inp with
         | c :: cs => atomFits a c && rxMatch fuel (.star a :: ps) cs (some c)
         | [] => false)
    | .plus a :: ps, inp =>
      (match inp with
       | [] => false
       | c :: cs => atomFits a c && rxMatch fuel (.star a :: ps) cs (some c))
    | .atLeast a 0 :: ps, inp => rxMatch fuel (.star a :: ps) inp prev
    | .atLeast a (m + 1) :: ps, inp =>
      (match inp with
       | [] => false
       | c :: cs => atomFits a c && rxMatch fuel (.atLeast a m :: ps) cs (some c))
    | .between a 0 0 :: ps, inp => rxMatch fuel ps inp prev
    | .between a 0 (n + 1) :: ps, inp =>
      rxMatch fuel ps inp prev ||
        (match inp with
         | c :: cs => atomFits a c && rxMatch fuel (.between a 0 n :: ps) cs (some c)
         | [] => false)
    | .between a (m + 1) n :: ps, inp =>
      (match inp with
       | [] => false
       | c :: cs => atomFits a c && rxMatch fuel (.between a m (n - 1) :: ps) cs (some c))

/-- Fuel covering the longest backtracking run of `rxMatch`. -/
def rxFuel (ps : List RPiece) (inp : List Char) : Nat :=
  (inp.length + 2) * ((ps.map pieceW).sum + 2)

/-- Try a match starting at every position. -/
def rxSearch (ps : List RPiece) : List Char → Option Char → Bool
  | [], prev => rxMatch (rxFuel ps []) ps [] prev
  | c :: cs, prev =>
    rxMatch (rxFuel ps (c :: cs)) ps (c :: cs) prev || rxSearch ps cs (some c)

/-- `RegExp(pattern, 'i').test(input)` for the supported subset. -/
def rxTest (pattern input : String) : Bool :=
  rxSearch (compilePat pattern) input.toList none

/-- The `BLOCKED` pattern list of the filter, verbatim. -/
def BLOCKED : List String :=
  ["n[i1!|][gq6][gq6][e3a@][r7]",
   "n[i1!|][gq6]\x7b2,\x7d",
   "f[a@4][gq6]\x7b1,2\x7d[o0][t7]",
   "f[a@4][gq6]\x7b1,2\x7d[s5]?",
   "r[e3]t[a@4]rd",
   "tr[a@4]nn[yi1]",
   "k[i1][k]+[e3]",
   "sp[i1][ckx]",
   "ch[i1]n[k]+",
   "g[o0]\x7b2,\x7dk",
   "w[e3]tb[a@4]ck",
   "b[e3][a@4]n[e3]r",
   "c[o0]\x7b2,\x7dn",
   "r[a@4]g?h[e3][a@4]d",
   "j[i1][gq6][a@4]b[o0]\x7b2,\x7d",
   "d[yi1]k[e3]",
   "c[u]+nt",
   "tw[a@4]t",
   "wh[o0]r[e3]",
   "sl[u]+t"]

/-- The `BLOCKED_EXACT` list. -/
def BLOCKED_EXACT : List String := ["kys", "stfu", "gtfo"]

/-- `.replace(/\[.*?\]/g, m => m[1])` — each class collapses to its first
member (every class in `BLOCKED` is non-empty, so `m[1]` is defined).  Fuel
only serves termination. -/
def simplifyClasses : Nat → List Char → List Char
  | 0, cs => cs
  | _, [] => []
  | fuel + 1, '[' :: rest =>
    if rest.any (· = ']') then
      let inside := rest.takeWhile (· ≠ ']')
      let after := (rest.dropWhile (· ≠ ']')).drop 1
      (match inside with
       | c :: _ => [c]
       | [] => []) ++ simplifyClasses fuel after
    else '[' :: simplifyClasses fuel rest
  | fuel + 1, c :: rest => c :: simplifyClasses fuel rest

/-- `.replace(/\{.*?\}/g, '+')`.  Fuel only serves termination. -/
def simplifyBraces : Nat → List Char → List Char
  | 0, cs => cs
  | _, [] => []
  | fuel + 1, '\x7b' :: rest =>
    if rest.any (· = '\x7d') then
      '+' :: simplifyBraces fuel ((rest.dropWhile (· ≠ '\x7d')).drop 1)
    else '\x7b' :: simplifyBraces fuel rest
  | fuel + 1, c :: rest => c :: simplifyBraces fuel rest

/-- The derived "simple" pattern (`part_001` 95–101): classes collapsed,
bounded repetition widened to `+`, optionals dropped; no `\b` anchors. -/
def simplePattern (p : String) : String :=
  ⟨(simplifyBraces (p.length + 1) (simplifyClasses (p.length + 1) p.toList)).filter (· ≠ '?')⟩

/-- The `normalize` function of the filter: strip spacer characters, then
undo the common digit/symbol substitutions. -/
def pfNormalize (text : String) : String :=
  let noSpacers := text.toList.filter
    (fun c => ¬(isJsWs c ∨ c = '_' ∨ c = '-' ∨ c = '.' ∨ c = '*'))
  ⟨noSpacers.map (fun c =>
    if c = '0' then 'o' else if c = '1' then 'i' else if c = '3' then 'e'
    else if c = '4' then 'a' else if c = '5' then 's' else if c = '7' then 't'
    else if c = '@' then 'a' else if c = '$' then 's' else if c = '!' then 'i'
    else if c = '|' then 'l' else c)⟩

/-- Result of a filter check. -/
structure CheckResult where
  clean : Bool
  reason : Option String
deriving DecidableEq

namespace ProfanityFilter

/-- `ProfanityFilter.check(text)`; `none` models `null`/`undefined` input,
which — like the empty string — is falsy and returns clean at once. -/
def check (text : Option String) : CheckResult :=
  match text with
  | none => ⟨true, none⟩
  | some t =>
    if t = "" then ⟨true, none⟩
    else
      let raw := jsLower t
      let normalized := pfNormalize raw
      if BLOCKED.any (fun p => rxTest ("\\b" ++ p ++ "\\b") raw) then
        ⟨false, some "Content contains offensive language."⟩
      else if BLOCKED.any (fun p => rxTest (simplePattern p) normalized) then
        ⟨false, some "Content contains offensive language."⟩
      else if BLOCKED_EXACT.any (fun p => rxTest ("\\b" ++ p ++ "\\b") raw) then
        ⟨false, some "Content contains inappropriate language."⟩
      else ⟨true, none⟩

/-- `ProfanityFilter.checkAll(title, description)`. -/
def checkAll (title description : Option String) : CheckResult :=
  let titleCheck := check title
  if ¬titleCheck.clean then titleCheck
  else
    let descCheck := check description
    if ¬descCheck.clean then descCheck
    else ⟨true, none⟩

end ProfanityFilter

/-! ## Specification-side predicates and scenario states -/

/-- `Reaches v n p`: the recognizable payload `p` sits exactly `n` unwrap
steps below `v` under the documented wrapper structure — parsing a
JSON-encoded (possibly code-fenced) string, entering an array element, or
entering one of the documented wrapper keys. -/
inductive Reaches : JValue → Nat → JValue → Prop where
  | here (v : JValue) : isResultPayload v = true → Reaches v 0 v
  | viaString (s : String) (w p : JValue) (n : Nat) :
      tryParseJSON s = some w → Reaches w n p → Reaches (.str s) (n + 1) p
  | viaItem (items : List JValue) (w p : JValue) (n : Nat) :
      w ∈ items → Reaches w n p → Reaches (.arr items) (n + 1) p
  | viaKey (fields : List (String × JValue)) (k : String) (w p : JValue) (n : Nat) :
      k ∈ wrapperKeys → lookupField fields k = some w → Reaches w n p →
      Reaches (.obj fields) (n + 1) p

/-- The two state-machine invariants the claims rely on: hot-dog screens and
hot-dog requests exist only while the hot-dog flag is set (and a pending
hot-dog request pins the state to `hd-analyzing`), and outside the analyzing
states the watchdog timer is never armed. -/
def AppInv (s : AppState) : Prop :=
  ((s.state = .hdCamera ∨ s.state = .hdAnalyzing ∨ s.state = .hdResult) →
    s.settings.hotdog = true) ∧
  (∀ r, s.activeRequest = some r → r.mode = .hotdog →
    s.settings.hotdog = true ∧ s.state = .hdAnalyzing) ∧
  (s.state ≠ .analyzing → s.state ≠ .hdAnalyzing → s.llmTimer = false)

/-- An environment with the transport present and healthy and a decoded
video frame — the nominal capture conditions. -/
def envOK : Env := ⟨true, false, some "img"⟩

/-- A concrete standard response: the Mug payload of the spec's scenario. -/
def mugResponse : JValue :=
  .obj [("data", .str "\x7b\"name\":\"Mug\",\"category\":\"Kitchenware\",\"description\":\"A drinking vessel.\",\"fun_fact\":\"Ceramic mugs date back millennia.\"\x7d")]

/-- Capture from the initial camera state, then the Mug response: a concrete
reachable state sitting on the standard result screen. -/
def resultScenario : AppState :=
  step envOK (.response mugResponse) (step envOK .sideClick (initState false false))

/-- The `Unknown`-result object literal shared by `buildFallbackStandardPayload`
(`app.js` 536–541) and the emergency fallback (`app.js` 593–598). -/
def fallbackObj (t : String) : JValue :=
  .obj [("name", .str "Unknown"), ("category", .str ""),
        ("description", .str t), ("fun_fact", .str "")]

/-- The inbound value of the C6 counterexample: an object whose only field is
an alternate name key (`title`) holding a non-string. -/
def c6Value : JValue := .obj [("title", .bool true)]

/-- A standard-mode analyzing state awaiting a response. -/
def c6State : AppState :=
  { state := .analyzing
    resultPage := 1
    llmTimer := true
    activeRequest := some (Request.mk .standard)
    settings := ⟨false, false⟩
    toast := none
    stdRender := none
    hdRender := none
    borderColor := "#000000" }

/-- The inbound value of the C1 witness: the payload is wrapped in a
`data` key holding a JSON-encoded string. -/
def c1Value : JValue := .obj [("data", .str "\x7b\"name\":\"x\"\x7d")]

/-! # Theorems -/

/-- C10: `ProfanityFilter.check` returns clean for every empty, `null` or
`undefined` input (the falsy early return, before any pattern is consulted);
and `checkAll(title, description)` reports unclean iff `check` flags the
title or flags the description, returning the title's result — hence its
reason — whenever the title is flagged. -/
theorem c10_profanity_empty_and_checkAll :
    (ProfanityFilter.check none).clean = true ∧
    (ProfanityFilter.check (some "")).clean = true ∧
    ∀ t d : Option String,
      (((ProfanityFilter.checkAll t d).clean = false) ↔
        ((ProfanityFilter.check t).clean = false ∨ (ProfanityFilter.check d).clean = false)) ∧
      ((ProfanityFilter.check t).clean = false →
        ProfanityFilter.checkAll t d = ProfanityFilter.check t) := by
  refine ⟨rfl, rfl, fun t d => ?_⟩
  unfold ProfanityFilter.checkAll
  by_cases h1 : (ProfanityFilter.check t).clean
  · by_cases h2 : (ProfanityFilter.check d).clean
    · simp [h1, h2]
    · simp [h1, h2]
  · simp [h1]

/-- Witness for C10 at a concrete flagged title. -/
theorem c10_profanity_empty_and_checkAll_witness :
    (ProfanityFilter.checkAll (some "kys") (some "hello")).clean = false ∧
    ProfanityFilter.checkAll (some "kys") (some "hello") = ProfanityFilter.check (some "kys") := by
  have h := c10_profanity_empty_and_checkAll.2.2 (some "kys") (some "hello")
  exact ⟨h.1.mpr (Or.inl (by decide)), h.2 (by decide)⟩

/-- C7: saving `{voice: true, hotdog: false}` and loading it back through the
same key-value blob yields the same values; loading when the blob is absent,
or is not valid base64-encoded JSON, leaves the defaults
`{voice: false, hotdog: false}` (all decode/parse throws are caught inside
`loadSettings`, so nothing propagates to the caller). -/
theorem c7_settings_roundtrip :
    loadSettings (saveBlob ⟨true, false⟩) ⟨false, false⟩ = ⟨true, false⟩ ∧
    loadSettings none ⟨false, false⟩ = ⟨false, false⟩ ∧
    ∀ raw : String,
      (atobOpt raw = none ∨ ∀ dec, atobOpt raw = some dec → jsonParse dec = none) →
      loadSettings (some raw) ⟨false, false⟩ = ⟨false, false⟩ := by
  refine ⟨by decide, rfl, fun raw h => ?_⟩
  unfold loadSettings
  by_cases hr : raw = ""
  · simp [hr]
  · simp only [hr, if_false, ite_false]
    cases ha : atobOpt raw with
    | none => rfl
    | some dec =>
      rcases h with h' | h'
      · rw [ha] at h'; cases h'
      · have := h' dec ha
        simp [this]

/-- Witness for C7 at a concrete corrupt blob. -/
theorem c7_settings_roundtrip_witness :
    loadSettings (some "!!!") ⟨false, false⟩ = ⟨false, false⟩ :=
  c7_settings_roundtrip.2.2 "!!!" (Or.inl (by decide))

/-- C5: whenever the transport's `postMessage` throws synchronously during
send, `sendToLLM` reports a user-visible error toast, transitions back to the
pre-capture camera variant (`hd-camera` when it was analyzing in hot-dog
mode, `camera` otherwise), and clears the active request it had just
created. -/
theorem c5_post_throw_discards_request (s : AppState) (env : Env)
    (hp : env.pmhPresent = true) (ht : env.postThrows = true) :
    (sendToLLM env s).activeRequest = none ∧
    (sendToLLM env s).toast = some "Request failed — try again" ∧
    (sendToLLM env s).state = (if s.state = .hdAnalyzing then UIState.hdCamera else .camera) := by
  unfold sendToLLM beginRequest showError setState
  simp [hp, ht]

/-- Witness for C5: a throwing post from the hot-dog analyzing state. -/
theorem c5_post_throw_discards_request_witness :
    (sendToLLM ⟨true, true, some "i"⟩ { initState false false with state := .hdAnalyzing }).activeRequest = none ∧
    (sendToLLM ⟨true, true, some "i"⟩ { initState false false with state := .hdAnalyzing }).toast = some "Request failed — try again" ∧
    (sendToLLM ⟨true, true, some "i"⟩ { initState false false with state := .hdAnalyzing }).state = .hdCamera := by
  have h := c5_post_throw_discards_request
    { initState false false with state := .hdAnalyzing } ⟨true, true, some "i"⟩ rfl rfl
  exact ⟨h.1, h.2.1, by simpa using h.2.2⟩

/-- C9: in the standard analyzing flow, an inbound value with no structured
payload, no extractable plain text, and stringification exactly `{}` or `[]`
(the empty object and the empty array are exactly these values) is silently
discarded: `handleLLMResponse` returns the state unchanged — no transition,
the active request stays, no toast. -/
theorem c9_empty_stringify_discarded (s : AppState) (v : JValue)
    (hs : s.state = .analyzing)
    (hm : ∀ r, s.activeRequest = some r → r.mode = .standard)
    (hv : v = .obj [] ∨ v = .arr []) :
    handleLLMResponse v s = s ∧
    extractResultPayload v 0 = none ∧
    extractPlainText v 0 = "" ∧
    (jsonStringify v = "\x7b\x7d" ∨ jsonStringify v = "[]") := by
  have hw : (s.state == UIState.analyzing || s.state == UIState.hdAnalyzing) = true := by
    simp [hs]
  rcases hv with rfl | rfl
  · refine ⟨?_, rfl, rfl, Or.inl rfl⟩
    unfold handleLLMResponse
    rw [hw]
    by_cases hh : isHotdogFlowOf s = true
    · have : hlParsedWithEmergency s (.obj []) = none := by
        unfold hlParsedWithEmergency hlParsed
        rw [hh]
        rfl
      simp [this]
    · have hh' : isHotdogFlowOf s = false := by simpa using hh
      have : hlParsedWithEmergency s (.obj []) = none := by
        unfold hlParsedWithEmergency hlParsed
        rw [hh']
        rfl
      simp [this]
  · refine ⟨?_, rfl, rfl, Or.inr rfl⟩
    unfold handleLLMResponse
    rw [hw]
    by_cases hh : isHotdogFlowOf s = true
    · have : hlParsedWithEmergency s (.arr []) = none := by
        unfold hlParsedWithEmergency hlParsed
        rw [hh]
        rfl
      simp [this]
    · have hh' : isHotdogFlowOf s = false := by simpa using hh
      have : hlParsedWithEmergency s (.arr []) = none := by
        unfold hlParsedWithEmergency hlParsed
        rw [hh']
        rfl
      simp [this]

/-- Witness for C9: the empty object delivered while analyzing with a pending
standard request changes nothing. -/
theorem c9_empty_stringify_discarded_witness :
    handleLLMResponse (.obj []) { initState false false with state := .analyzing, activeRequest := some ⟨.standard⟩ } =
      { initState false false with state := .analyzing, activeRequest := some ⟨.standard⟩ } := by
  have h := c9_empty_stringify_discarded
    { initState false false with state := .analyzing, activeRequest := some ⟨.standard⟩ }
    (.obj []) rfl (fun r hr => by cases hr; rfl) (Or.inl rfl)
  exact h.1

/-- `includes` as list-infix. -/
lemma strIncludes_iff (h n : String) : strIncludes h n = true ↔ n.toList <:+: h.toList := by
  unfold strIncludes
  rw [List.any_eq_true]
  constructor
  · rintro ⟨t, ht, hp⟩
    rw [List.mem_tails] at ht
    rw [List.infix_iff_prefix_suffix]
    exact ⟨t, List.isPrefixOf_iff_prefix.mp hp, ht⟩
  · intro hinf
    rw [List.infix_iff_prefix_suffix] at hinf
    obtain ⟨t, hp, hsuf⟩ := hinf
    exact ⟨t, (List.mem_tails _ _).mpr hsuf, List.isPrefixOf_iff_prefix.mpr hp⟩

/-- A text containing "NOT HOT DOG" contains "HOT DOG". -/
lemma includes_nothotdog_imp_hotdog (u : String)
    (h : strIncludes u "NOT HOT DOG" = true) : strIncludes u "HOT DOG" = true := by
  rw [strIncludes_iff] at h ⊢
  exact List.IsInfix.trans (by decide) h

/-- C2: in hot-dog mode, when structured extraction fails, any extracted text
whose upper-cased form contains "HOT DOG" (texts containing "NOT HOT DOG"
always do — `includes_nothotdog_imp_hotdog`) renders the hot-dog result
screen: verdict `NOT HOT DOG` iff the text contains "NOT HOT DOG" (regardless
of any surrounding text), verdict `HOT DOG` otherwise, and the reason is the
text itself when its UTF-16 length is at most 200, otherwise the placeholder
"Unable to classify.". -/
theorem c2_hotdog_text_fallback (s : AppState) (v : JValue)
    (hs : s.state = .hdAnalyzing)
    (hnp : extractResultPayload (hlBase v) 0 = none)
    (hhd : strIncludes (jsUpper (hlFallbackText v)) "HOT DOG" = true ∨
           strIncludes (jsUpper (hlFallbackText v)) "NOT HOT DOG" = true) :
    (handleLLMResponse v s).state = .hdResult ∧
    (handleLLMResponse v s).hdRender = some
      { icon := if strIncludes (jsUpper (hlFallbackText v)) "NOT HOT DOG" then "🚫" else "🌭"
        verdict := if strIncludes (jsUpper (hlFallbackText v)) "NOT HOT DOG" then "NOT HOT DOG" else "HOT DOG"
        reason := if utf16Len (hlFallbackText v) ≤ 200 then hlFallbackText v else "Unable to classify." } ∧
    (handleLLMResponse v s).activeRequest = none := by
  have hhot : strIncludes (jsUpper (hlFallbackText v)) "HOT DOG" = true :=
    hhd.elim id (includes_nothotdog_imp_hotdog _)
  have ht : hlFallbackText v ≠ "" := by
    intro h0
    rw [h0] at hhot
    exact absurd hhot (by decide)
  have hflow : isHotdogFlowOf s = true := by simp [isHotdogFlowOf, hs]
  have hparsed : hlParsedWithEmergency s v = some (.obj
      [("result", .str (if strIncludes (jsUpper (hlFallbackText v)) "NOT HOT DOG" then "NOT HOT DOG" else "HOT DOG")),
       ("reason", .str (if utf16Len (hlFallbackText v) ≤ 200 then hlFallbackText v else "Unable to classify."))]) := by
    unfold hlParsedWithEmergency hlParsed synthHotdogFromText
    rw [hnp, hflow]
    simp [hhot]
  have hw : (!(s.state == UIState.analyzing || s.state == UIState.hdAnalyzing) &&
      s.activeRequest == none) = false := by
    simp [hs]
  unfold handleLLMResponse
  simp only [hw, Bool.false_eq_true, if_false, hparsed, hflow, if_true]
  by_cases hn : strIncludes (jsUpper (hlFallbackText v)) "NOT HOT DOG" = true
  · by_cases hl : utf16Len (hlFallbackText v) ≤ 200
    · simp [hn, hl, hlCoerce, hflow, hotdogCoerce, resultFieldIsString, hasStrField, objGet,
        lookupField, showHotdogResult, setState, hdResultString, hdVerdictTrue, jsOrJ, jsTruthy,
        jsToString, ht]
      all_goals decide
    · simp [hn, hl, hlCoerce, hflow, hotdogCoerce, resultFieldIsString, hasStrField, objGet,
        lookupField, showHotdogResult, setState, hdResultString, hdVerdictTrue, jsOrJ, jsTruthy,
        jsToString, ht]
      all_goals decide
  · by_cases hl : utf16Len (hlFallbackText v) ≤ 200
    · simp [hn, hl, hlCoerce, hflow, hotdogCoerce, resultFieldIsString, hasStrField, objGet,
        lookupField, showHotdogResult, setState, hdResultString, hdVerdictTrue, jsOrJ, jsTruthy,
        jsToString, ht]
      all_goals decide
    · simp [hn, hl, hlCoerce, hflow, hotdogCoerce, resultFieldIsString, hasStrField, objGet,
        lookupField, showHotdogResult, setState, hdResultString, hdVerdictTrue, jsOrJ, jsTruthy,
        jsToString, ht]
      all_goals decide

/-- Witness for C2: a plain-text hot-dog verdict with surrounding text. -/
theorem c2_hotdog_text_fallback_witness :
    (handleLLMResponse (.str "I think this is a HOT DOG, yum")
      { initState false false with state := .hdAnalyzing, activeRequest := some ⟨.hotdog⟩ }).state = .hdResult ∧
    (handleLLMResponse (.str "I think this is a HOT DOG, yum")
      { initState false false with state := .hdAnalyzing, activeRequest := some ⟨.hotdog⟩ }).hdRender =
      some ⟨"🌭", "HOT DOG", "I think this is a HOT DOG, yum"⟩ ∧
    (handleLLMResponse (.str "I think this is a HOT DOG, yum")
      { initState false false with state := .hdAnalyzing, activeRequest := some ⟨.hotdog⟩ }).activeRequest = none := by
  have h := c2_hotdog_text_fallback
    { initState false false with state := .hdAnalyzing, activeRequest := some ⟨.hotdog⟩ }
    (.str "I think this is a HOT DOG, yum") rfl rfl (Or.inl (by decide))
  refine ⟨h.1, ?_, h.2.2⟩
  rw [h.2.1]
  decide

/-- The watchdog callback either does nothing or only sets the toast. -/
lemma watchdogFire_eq (s : AppState) :
    watchdogFire s = s ∨ watchdogFire s = { s with toast := some "Still waiting for response…" } := by
  unfold watchdogFire showError
  split
  · right; rfl
  · left; rfl

/-- `handleLLMResponse` never reads the toast: its outcome (up to the toast
itself) is unchanged when only the toast differs. -/
lemma hl_toast_indep (v : JValue) (s : AppState) (t : Option String) :
    (handleLLMResponse v { s with toast := t }).state = (handleLLMResponse v s).state ∧
    (handleLLMResponse v { s with toast := t }).stdRender = (handleLLMResponse v s).stdRender ∧
    (handleLLMResponse v { s with toast := t }).hdRender = (handleLLMResponse v s).hdRender ∧
    (handleLLMResponse v { s with toast := t }).activeRequest = (handleLLMResponse v s).activeRequest ∧
    (handleLLMResponse v { s with toast := t }).llmTimer = (handleLLMResponse v s).llmTimer ∧
    (handleLLMResponse v { s with toast := t }).resultPage = (handleLLMResponse v s).resultPage := by
  unfold handleLLMResponse
  have e1 : hlParsedWithEmergency { s with toast := t } v = hlParsedWithEmergency s v := rfl
  have e2 : isHotdogFlowOf { s with toast := t } = isHotdogFlowOf s := rfl
  have e3 : ∀ p, hlCoerce { s with toast := t } v p = hlCoerce s v p := fun _ => rfl
  simp only [e1, e2, e3]
  by_cases hcond : (!(s.state == UIState.analyzing || s.state == UIState.hdAnalyzing) &&
      s.activeRequest == none) = true
  · have h' : (s.state ≠ UIState.analyzing ∧ s.state ≠ UIState.hdAnalyzing) ∧
        s.activeRequest = none := by simpa using hcond
    simp [h'.1.1, h'.1.2, h'.2]
  · have hc' : (!(s.state == UIState.analyzing || s.state == UIState.hdAnalyzing) &&
        s.activeRequest == none) = false := by simpa using hcond
    simp only [hc', Bool.false_eq_true, if_false]
    cases hp : hlParsedWithEmergency s v with
    | none => simp
    | some p =>
      cases hc : hlCoerce s v p with
      | none => simp [hc, setState, showError]
      | some p2 =>
        by_cases hh : isHotdogFlowOf s = true
        · simp [hc, hh, showHotdogResult, setState]
        · simp [hc, hh, showHotdogResult, showResult, setState]

/-- The standard-flow rendering path: an extracted payload without a string
`result` field that normalizes to `q` lands on the result screen rendering
`q`, and the request is cleared. -/
lemma hl_std_render (s : AppState) (v p q : JValue)
    (hs : s.state = .analyzing) (hflow : isHotdogFlowOf s = false)
    (hp : extractResultPayload (hlBase v) 0 = some p)
    (hr : resultFieldIsString p = false)
    (hq : normalizeStandardPayload p = some q) :
    (handleLLMResponse v s).state = .result ∧
    (handleLLMResponse v s).stdRender = some (stdRenderOf q) ∧
    (handleLLMResponse v s).activeRequest = none := by
  have hw : (!(s.state == UIState.analyzing || s.state == UIState.hdAnalyzing) &&
      s.activeRequest == none) = false := by
    simp [hs]
  have hparsed : hlParsedWithEmergency s v = some p := by
    unfold hlParsedWithEmergency hlParsed
    rw [hp]
  have hcoerce : hlCoerce s v p = some q := by
    unfold hlCoerce
    rw [hflow, hr]
    simp [hq]
  unfold handleLLMResponse
  simp only [hw, Bool.false_eq_true, if_false, hparsed, hcoerce, hflow]
  simp [showResult, setState]

/-- C3: the watchdog is advisory.  Firing it while analyzing only surfaces a
"still waiting" toast — state, active request and timer are untouched — and a
response processed afterwards (while the active request still exists) yields
exactly the outcome it would have had without the watchdog; in particular a
standard payload still produces the correctly-rendered result screen. -/
theorem c3_late_response_honored (s : AppState) (v p q : JValue)
    (hs : s.state = .analyzing ∨ s.state = .hdAnalyzing) :
    ((watchdogFire s).activeRequest = s.activeRequest ∧
     (watchdogFire s).state = s.state ∧
     (watchdogFire s).llmTimer = s.llmTimer) ∧
    ((handleLLMResponse v (watchdogFire s)).state = (handleLLMResponse v s).state ∧
     (handleLLMResponse v (watchdogFire s)).stdRender = (handleLLMResponse v s).stdRender ∧
     (handleLLMResponse v (watchdogFire s)).hdRender = (handleLLMResponse v s).hdRender ∧
     (handleLLMResponse v (watchdogFire s)).activeRequest = (handleLLMResponse v s).activeRequest ∧
     (handleLLMResponse v (watchdogFire s)).resultPage = (handleLLMResponse v s).resultPage) ∧
    (s.state = .analyzing → isHotdogFlowOf s = false →
     extractResultPayload (hlBase v) 0 = some p →
     resultFieldIsString p = false →
     normalizeStandardPayload p = some q →
     (handleLLMResponse v (watchdogFire s)).state = .result ∧
     (handleLLMResponse v (watchdogFire s)).stdRender = some (stdRenderOf q) ∧
     (handleLLMResponse v (watchdogFire s)).activeRequest = none) := by
  rcases watchdogFire_eq s with he | he
  · rw [he]
    refine ⟨⟨rfl, rfl, rfl⟩, ⟨rfl, rfl, rfl, rfl, rfl⟩, fun h1 h2 h3 h4 h5 => ?_⟩
    exact hl_std_render s v p q h1 h2 h3 h4 h5
  · rw [he]
    have hti := hl_toast_indep v s (some "Still waiting for response…")
    refine ⟨⟨rfl, rfl, rfl⟩, ⟨hti.1, hti.2.1, hti.2.2.1, hti.2.2.2.1, hti.2.2.2.2.2⟩,
      fun h1 h2 h3 h4 h5 => ?_⟩
    have hr := hl_std_render { s with toast := some "Still waiting for response…" } v p q h1 h2 h3 h4 h5
    exact hr

/-- Witness for C3: a Pen payload arriving after the watchdog fired. -/
theorem c3_late_response_honored_witness :
    (handleLLMResponse (.obj [("name", .str "Pen")])
      (watchdogFire { initState false false with state := .analyzing, activeRequest := some ⟨.standard⟩ })).state = .result ∧
    (handleLLMResponse (.obj [("name", .str "Pen")])
      (watchdogFire { initState false false with state := .analyzing, activeRequest := some ⟨.standard⟩ })).stdRender =
      some ⟨"", "Pen", "", "", false⟩ ∧
    (handleLLMResponse (.obj [("name", .str "Pen")])
      (watchdogFire { initState false false with state := .analyzing, activeRequest := some ⟨.standard⟩ })).activeRequest = none ∧
    (watchdogFire { initState false false with state := .analyzing, activeRequest := some ⟨.standard⟩ }).activeRequest =
      some ⟨.standard⟩ := by
  have h := c3_late_response_honored { initState false false with state := .analyzing, activeRequest := some ⟨.standard⟩ }
    (.obj [("name", .str "Pen")]) (.obj [("name", .str "Pen")])
    (.obj [("name", .str "Pen"), ("category", .str ""), ("description", .str ""), ("fun_fact", .str "")])
    (Or.inl rfl)
  have h3 := h.2.2 rfl (by decide) rfl rfl rfl
  refine ⟨h3.1, ?_, h3.2.2, h.1.1⟩
  rw [h3.2.1]
  decide

/-- `setState` writes the state field verbatim. -/
@[simp] lemma setState_state (u : UIState) (s : AppState) : (setState u s).state = u := rfl
@[simp] lemma setState_settings (u : UIState) (s : AppState) : (setState u s).settings = s.settings := rfl
@[simp] lemma setState_activeRequest (u : UIState) (s : AppState) :
    (setState u s).activeRequest = s.activeRequest := rfl

/-- Outcomes of `handleLLMResponse`: either nothing changes, or the request
is consumed, the timer cleared, the settings untouched, and the state lands
on `camera` (parse error), `result`, or — only in the hot-dog flow —
`hd-result`. -/
lemma hl_cases (v : JValue) (s : AppState) :
    handleLLMResponse v s = s ∨
    ((handleLLMResponse v s).settings = s.settings ∧
     (handleLLMResponse v s).activeRequest = none ∧
     (handleLLMResponse v s).llmTimer = false ∧
     ((handleLLMResponse v s).state = .camera ∨ (handleLLMResponse v s).state = .result ∨
      ((handleLLMResponse v s).state = .hdResult ∧ isHotdogFlowOf s = true))) := by
  unfold handleLLMResponse
  by_cases hcond : (!(s.state == UIState.analyzing || s.state == UIState.hdAnalyzing) &&
      s.activeRequest == none) = true
  · have h' : (s.state ≠ UIState.analyzing ∧ s.state ≠ UIState.hdAnalyzing) ∧
        s.activeRequest = none := by simpa using hcond
    left
    simp [h'.1.1, h'.1.2, h'.2]
  · have hc' : (!(s.state == UIState.analyzing || s.state == UIState.hdAnalyzing) &&
        s.activeRequest == none) = false := by simpa using hcond
    simp only [hc', Bool.false_eq_true, if_false]
    cases hp : hlParsedWithEmergency s v with
    | none => left; rfl
    | some p =>
      cases hc : hlCoerce s v p with
      | none =>
        right
        simp only [hc]
        exact ⟨rfl, rfl, rfl, Or.inl rfl⟩
      | some p2 =>
        by_cases hh : isHotdogFlowOf s = true
        · right
          simp only [hc, hh, if_true]
          exact ⟨rfl, rfl, rfl, Or.inr (Or.inr ⟨rfl, trivial⟩)⟩
        · right
          simp only [hc, hh, if_false]
          exact ⟨rfl, rfl, rfl, Or.inr (Or.inl rfl)⟩

/-- Outcomes of `doCapture`: settings untouched, and either a bounce back to
the original camera state (frame not ready, or post threw: timer cleared,
request dropped or untouched) or an entry into the matching analyzing state
with a fresh request of the matching mode (timer armed on a successful post,
untouched in dev mode). -/
lemma doCapture_cases (env : Env) (s : AppState) (hs : s.state = .camera ∨ s.state = .hdCamera) :
    (doCapture env s).settings = s.settings ∧
    (((doCapture env s).state = s.state ∧
      ((doCapture env s).activeRequest = s.activeRequest ∨ (doCapture env s).activeRequest = none) ∧
      (doCapture env s).llmTimer = false) ∨
     ((doCapture env s).state = (if s.state = .hdCamera then UIState.hdAnalyzing else .analyzing) ∧
      (doCapture env s).activeRequest = some ⟨if s.state = .hdCamera then .hotdog else .standard⟩ ∧
      ((doCapture env s).llmTimer = s.llmTimer ∨ (doCapture env s).llmTimer = true))) := by
  rcases hs with hs | hs <;>
  · unfold doCapture sendToLLM beginRequest
    cases hf : env.frame with
    | none =>
      refine ⟨rfl, Or.inl ?_⟩
      simp [hs, setState, showError]
    | some img =>
      by_cases hp : env.pmhPresent = true
      · by_cases ht : env.postThrows = true
        · refine ⟨?_, Or.inl ?_⟩ <;> simp [hs, hp, ht, setState, showError]
        · refine ⟨?_, Or.inr ?_⟩ <;> simp [hs, hp, ht, setState, showError]
      · refine ⟨?_, Or.inr ?_⟩ <;> simp [hs, hp, setState, showError]

/-- A capture from a camera state preserves the invariant. -/
lemma doCapture_inv (env : Env) (s : AppState) (hinv : AppInv s)
    (hs : s.state = .camera ∨ s.state = .hdCamera) : AppInv (doCapture env s) := by
  obtain ⟨h1, h2, h3⟩ := hinv
  obtain ⟨hset, hcase⟩ := doCapture_cases env s hs
  rcases hcase with ⟨hst, hreq, htim⟩ | ⟨hst, hreq, htim⟩
  · refine ⟨?_, ?_, ?_⟩
    · intro hx
      rw [hst] at hx
      rcases hs with hs | hs
      · rw [hs] at hx; rcases hx with hx | hx | hx <;> cases hx
      · rw [hset]
        exact h1 (Or.inl hs)
    · intro r hr hm
      rcases hreq with hreq | hreq
      · rw [hreq] at hr
        have hc := (h2 r hr hm).2
        rcases hs with hs | hs <;> rw [hs] at hc <;> cases hc
      · rw [hreq] at hr; cases hr
    · intro _ _; exact htim
  · rcases hs with hs | hs
    · rw [hs] at hst hreq
      rw [if_neg (by decide : ¬(UIState.camera = UIState.hdCamera))] at hst hreq
      refine ⟨?_, ?_, ?_⟩
      · intro hx
        rw [hst] at hx
        rcases hx with hx | hx | hx <;> cases hx
      · intro r hr hm
        rw [hreq] at hr
        cases hr
        cases hm
      · intro hx _
        rw [hst] at hx
        exact absurd rfl hx
    · rw [hs] at hst hreq
      rw [if_pos rfl] at hst hreq
      refine ⟨?_, ?_, ?_⟩
      · intro _
        rw [hset]
        exact h1 (Or.inl hs)
      · intro r hr hm
        rw [hset, hst]
        exact ⟨h1 (Or.inl hs), rfl⟩
      · intro _ hx
        rw [hst] at hx
        exact absurd rfl hx

/-- What the hot-dog-flow test means. -/
lemma isHotdogFlowOf_spec (s : AppState) (h : isHotdogFlowOf s = true) :
    s.state = .hdAnalyzing ∨ ∃ r, s.activeRequest = some r ∧ r.mode = .hotdog := by
  unfold isHotdogFlowOf at h
  rcases Bool.or_eq_true_iff.mp h with h' | h'
  · left; exact beq_iff_eq.mp h'
  · right
    cases hr : s.activeRequest with
    | none => rw [hr] at h'; cases h'
    | some r =>
      rw [hr] at h'
      exact ⟨r, rfl, beq_iff_eq.mp h'⟩

/-- Returning to a camera variant preserves the invariant whenever no
pending hot-dog request can exist (any state but `hd-analyzing`). -/
lemma returnToCamera_inv (s : AppState) (hinv : AppInv s)
    (hs : s.state ≠ .hdAnalyzing) : AppInv (returnToCamera s) := by
  obtain ⟨h1, h2, h3⟩ := hinv
  unfold returnToCamera
  refine ⟨?_, ?_, ?_⟩
  · intro hx
    rw [setState_settings]
    by_cases hf : s.settings.hotdog = true
    · exact hf
    · rw [setState_state, if_neg (by simpa using hf)] at hx
      rcases hx with hx | hx | hx <;> cases hx
  · intro r hr hm
    rw [setState_activeRequest] at hr
    exact absurd (h2 r hr hm).2 hs
  · intro _ _
    simp only [setState]
    split <;> simp_all

/-- Entering `settings`, `camera`, or (with the flag set) `hd-camera`
preserves the invariant away from `hd-analyzing`. -/
lemma toSettingsOrCam_inv (s : AppState) (hinv : AppInv s) (u : UIState)
    (hs : s.state ≠ .hdAnalyzing)
    (hu : u = .settings ∨ (u = .hdCamera ∧ s.settings.hotdog = true) ∨ u = .camera) :
    AppInv (setState u s) := by
  obtain ⟨h1, h2, h3⟩ := hinv
  refine ⟨?_, ?_, ?_⟩
  · intro hx
    rw [setState_state] at hx
    rw [setState_settings]
    rcases hu with hu | ⟨hu, hf⟩ | hu <;> subst hu
    · rcases hx with hx | hx | hx <;> cases hx
    · exact hf
    · rcases hx with hx | hx | hx <;> cases hx
  · intro r hr hm
    rw [setState_activeRequest] at hr
    exact absurd (h2 r hr hm).2 hs
  · intro _ _
    simp only [setState]
    rcases hu with hu | ⟨hu, _⟩ | hu <;> subst hu <;> simp

/-- The watchdog callback preserves the invariant (it only sets the toast). -/
lemma watchdogFire_inv (s : AppState) (hinv : AppInv s) : AppInv (watchdogFire s) := by
  rcases watchdogFire_eq s with he | he <;> rw [he]
  · exact hinv
  · obtain ⟨h1, h2, h3⟩ := hinv
    exact ⟨h1, h2, h3⟩

/-- Processing an inbound message preserves the invariant. -/
lemma handleLLMResponse_inv (v : JValue) (s : AppState) (hinv : AppInv s) :
    AppInv (handleLLMResponse v s) := by
  rcases hl_cases v s with he | ⟨hset, hreq, htim, hstate⟩
  · rw [he]; exact hinv
  · obtain ⟨h1, h2, h3⟩ := hinv
    refine ⟨?_, ?_, ?_⟩
    · intro hx
      rw [hset]
      rcases hstate with hst | hst | ⟨hst, hflow⟩
      · rw [hst] at hx; rcases hx with hx | hx | hx <;> cases hx
      · rw [hst] at hx; rcases hx with hx | hx | hx <;> cases hx
      · rcases isHotdogFlowOf_spec s hflow with hh | ⟨r, hr, hm⟩
        · exact h1 (Or.inr (Or.inl hh))
        · exact (h2 r hr hm).1
    · intro r hr _
      rw [hreq] at hr; cases hr
    · intro _ _; exact htim

/-- The startup state satisfies the invariant for any loaded settings. -/
lemma initState_inv (voice hotdog : Bool) : AppInv (initState voice hotdog) := by
  refine ⟨?_, ?_, ?_⟩
  · intro hx; rcases hx with hx | hx | hx <;> cases hx
  · intro r hr; cases hr
  · intro _ _; rfl

/-- Every event dispatch preserves the invariant. -/
lemma step_inv (env : Env) (e : Ev) (s : AppState) (hinv : AppInv s) :
    AppInv (step env e s) := by
  have h1 := hinv.1
  have h2 := hinv.2.1
  have h3 := hinv.2.2
  cases e with
  | sideClick =>
    show AppInv (onSideClick env s)
    unfold onSideClick
    cases hst : s.state with
    | camera => exact doCapture_inv env s hinv (Or.inl hst)
    | hdCamera => exact doCapture_inv env s hinv (Or.inr hst)
    | result => exact returnToCamera_inv s hinv (by rw [hst]; decide)
    | hdResult =>
      exact toSettingsOrCam_inv s hinv .hdCamera (by rw [hst]; decide)
        (Or.inr (Or.inl ⟨rfl, h1 (Or.inr (Or.inr hst))⟩))
    | settings =>
      show AppInv (closeSettings s)
      unfold closeSettings
      exact returnToCamera_inv s hinv (by rw [hst]; decide)
    | analyzing => exact hinv
    | hdAnalyzing => exact hinv
  | longPress =>
    show AppInv (onLongPress s)
    unfold onLongPress
    cases hst : s.state with
    | result => exact returnToCamera_inv s hinv (by rw [hst]; decide)
    | hdResult => exact returnToCamera_inv s hinv (by rw [hst]; decide)
    | settings =>
      show AppInv (closeSettings s)
      unfold closeSettings
      exact returnToCamera_inv s hinv (by rw [hst]; decide)
    | camera => exact hinv
    | hdCamera => exact hinv
    | analyzing => exact hinv
    | hdAnalyzing => exact hinv
  | scrollUp =>
    show AppInv (onScrollUp s)
    unfold onScrollUp
    cases hst : s.state with
    | result =>
      by_cases hp : s.resultPage = 2
      · simp only [hp, if_true]
        exact ⟨fun hx => h1 hx, fun r hr hm => h2 r hr hm, fun ha hb => h3 ha hb⟩
      · simp only [hp, if_false]
        exact hinv
    | camera => exact hinv
    | hdCamera => exact hinv
    | analyzing => exact hinv
    | hdAnalyzing => exact hinv
    | settings => exact hinv
    | hdResult => exact hinv
  | scrollDown =>
    show AppInv (onScrollDown s)
    unfold onScrollDown
    cases hst : s.state with
    | result =>
      by_cases hp : s.resultPage = 1
      · simp only [hp, if_true]
        exact ⟨fun hx => h1 hx, fun r hr hm => h2 r hr hm, fun ha hb => h3 ha hb⟩
      · by_cases hq : s.resultPage = 2
        · simp only [hp, hq, if_false, if_true]
          exact returnToCamera_inv s hinv (by rw [hst]; decide)
        · simp only [hp, hq, if_false]
          exact hinv
    | camera => exact hinv
    | hdCamera => exact hinv
    | analyzing => exact hinv
    | hdAnalyzing => exact hinv
    | settings => exact hinv
    | hdResult => exact hinv
  | backButton =>
    show AppInv (if s.state = .result then returnToCamera s else s)
    by_cases hst : s.state = .result
    · simp only [hst, if_true]
      exact returnToCamera_inv s hinv (by rw [hst]; decide)
    · simp only [hst, if_false]
      exact hinv
  | settingsButton =>
    show AppInv (if s.state = .camera ∨ s.state = .hdCamera then setState .settings s else s)
    by_cases hst : s.state = .camera ∨ s.state = .hdCamera
    · simp only [hst, if_true]
      refine toSettingsOrCam_inv s hinv .settings ?_ (Or.inl rfl)
      rcases hst with hst | hst <;> rw [hst] <;> decide
    · simp only [hst, if_false]
      exact hinv
  | closeSettingsButton =>
    show AppInv (if s.state = .settings then closeSettings s else s)
    by_cases hst : s.state = .settings
    · simp only [hst, if_true]
      unfold closeSettings
      exact returnToCamera_inv s hinv (by rw [hst]; decide)
    · simp only [hst, if_false]
      exact hinv
  | voiceToggle =>
    show AppInv (if s.state = .settings then
      { s with settings := { s.settings with voice := !s.settings.voice } } else s)
    by_cases hst : s.state = .settings
    · simp only [hst, if_true]
      refine ⟨?_, ?_, ?_⟩
      · intro hx
        rcases hx with hx | hx | hx <;> simp at hx
      · intro r hr hm
        have := (h2 r hr hm).2
        rw [hst] at this; cases this
      · intro _ _
        show s.llmTimer = false
        exact h3 (by rw [hst]; decide) (by rw [hst]; decide)
    · simp only [hst, if_false]
      exact hinv
  | hotdogToggle =>
    show AppInv (if s.state = .settings then
      { s with settings := { s.settings with hotdog := !s.settings.hotdog } } else s)
    by_cases hst : s.state = .settings
    · simp only [hst, if_true]
      refine ⟨?_, ?_, ?_⟩
      · intro hx
        rcases hx with hx | hx | hx <;> simp at hx
      · intro r hr hm
        have := (h2 r hr hm).2
        rw [hst] at this; cases this
      · intro _ _
        show s.llmTimer = false
        exact h3 (by rw [hst]; decide) (by rw [hst]; decide)
    · simp only [hst, if_false]
      exact hinv
  | response v => exact handleLLMResponse_inv v s hinv
  | watchdog => exact watchdogFire_inv s hinv

/-- The invariant holds on every reachable state. -/
lemma reachable_inv (s : AppState) (h : Reachable s) : AppInv s := by
  induction h with
  | init voice hotdog => exact initState_inv voice hotdog
  | next env e hs ih => exact step_inv env e _ ih

/-- C4: on a reachable state sitting on a result screen, every back
interaction — short press (`sideClick`), long press (`longPressEnd`), or the
on-screen back button (which exists on the standard result screen) — lands on
the camera variant selected by the hot-dog settings flag.  (For the short
press on `hd-result` the source jumps to `hd-camera` unconditionally; the
reachability invariant shows the flag is necessarily set there, so the flag
still decides the destination.) -/
theorem c4_back_returns_to_camera (s : AppState) (env : Env) (h : Reachable s)
    (hres : s.state = .result ∨ s.state = .hdResult)
    (e : Ev) (he : e = .sideClick ∨ e = .longPress ∨ (e = .backButton ∧ s.state = .result)) :
    (step env e s).state = (if s.settings.hotdog then UIState.hdCamera else .camera) := by
  have hinv := reachable_inv s h
  rcases he with rfl | rfl | ⟨rfl, hb⟩
  · show (onSideClick env s).state = _
    unfold onSideClick
    rcases hres with hs | hs <;> rw [hs]
    · rfl
    · have hf : s.settings.hotdog = true := hinv.1 (Or.inr (Or.inr hs))
      rw [hf]
      rfl
  · show (onLongPress s).state = _
    unfold onLongPress
    rcases hres with hs | hs <;> rw [hs] <;> rfl
  · show (if s.state = .result then returnToCamera s else s).state = _
    rw [if_pos hb]
    rfl

/-- Witness for C4: short press on the reachable Mug result screen returns
to the plain camera. -/
theorem c4_back_returns_to_camera_witness :
    (step envOK .sideClick resultScenario).state = .camera := by
  have hre : Reachable resultScenario :=
    Reachable.next envOK (.response mugResponse)
      (Reachable.next envOK .sideClick (Reachable.init false false))
  have h := c4_back_returns_to_camera resultScenario envOK hre (Or.inl (by decide)) .sideClick (Or.inl rfl)
  have hf : resultScenario.settings.hotdog = false := by decide
  rw [hf] at h
  simpa using h

/-- Counterexample to C8 as stated: `setState` into `analyzing` does *not*
arm the watchdog (the timer stays `null`), and a full capture event in dev
mode (transport object undefined) likewise ends in `analyzing` with no timer
armed.  Arming happens only in `sendToLLM` after a successful post. -/
theorem c8_watchdog_counterexample :
    (setState .analyzing (initState false false)).state = .analyzing ∧
    (setState .analyzing (initState false false)).llmTimer = false ∧
    (step ⟨false, false, some "img"⟩ .sideClick (initState false false)).state = .analyzing ∧
    (step ⟨false, false, some "img"⟩ .sideClick (initState false false)).llmTimer = false := by
  exact ⟨rfl, rfl, by decide, by decide⟩

/-- C8 as amended: (1) every transition to a non-analyzing state clears the
watchdog timer as a side effect of `setState` itself; (2) hence on every
reachable state outside the analyzing states the timer is unarmed; (3) the
timer is armed not by the transition but by the successful post inside the
capture event: a capture (side click from a camera state) with the transport
present, a healthy post and a decoded frame ends in the corresponding
analyzing state with the watchdog armed. -/
theorem c8_watchdog_clearing_and_arming :
    (∀ s : AppState, ∀ u : UIState, u ≠ .analyzing → u ≠ .hdAnalyzing →
      (setState u s).llmTimer = false) ∧
    (∀ s : AppState, Reachable s → s.state ≠ .analyzing → s.state ≠ .hdAnalyzing →
      s.llmTimer = false) ∧
    (∀ s : AppState, ∀ env : Env, env.pmhPresent = true → env.postThrows = false →
      (s.state = .camera ∨ s.state = .hdCamera) → env.frame ≠ none →
      (step env .sideClick s).llmTimer = true ∧
      (step env .sideClick s).state = (if s.state = .hdCamera then UIState.hdAnalyzing else .analyzing)) := by
  refine ⟨?_, ?_, ?_⟩
  · intro s u ha hb
    unfold setState
    simp [ha, hb]
  · intro s h ha hb
    exact (reachable_inv s h).2.2 ha hb
  · intro s env hp ht hs hf
    have hstep : step env .sideClick s = doCapture env s := by
      show onSideClick env s = doCapture env s
      unfold onSideClick
      rcases hs with hs | hs <;> rw [hs]
    rw [hstep]
    unfold doCapture sendToLLM beginRequest
    cases hfv : env.frame with
    | none => exact absurd hfv hf
    | some img =>
      rcases hs with hs | hs <;> simp [hs, hp, ht, setState]

/-- Witness for C8 (amended): a nominal capture arms the timer; a transition
to `camera` clears it. -/
theorem c8_watchdog_clearing_and_arming_witness :
    (step envOK .sideClick (initState false false)).llmTimer = true ∧
    (step envOK .sideClick (initState false false)).state = .analyzing ∧
    (setState .camera (initState false false)).llmTimer = false := by
  have h3 := c8_watchdog_clearing_and_arming.2.2 (initState false false) envOK rfl rfl (Or.inl rfl)
    (by simp [envOK])
  have h1 := c8_watchdog_clearing_and_arming.1 (initState false false) .camera (by decide) (by decide)
  exact ⟨h3.1, by simpa using h3.2, h1⟩

lemma dropWhile_head_false {α} {p : α → Bool} :
    ∀ {l : List α} {a : α} {t : List α}, l.dropWhile p = a :: t → p a = false := by
  intro l
  induction l with
  | nil => intro a t h; cases h
  | cons x xs ih =>
    intro a t h
    rw [List.dropWhile_cons] at h
    by_cases hx : p x = true
    · rw [if_pos hx] at h
      exact ih h
    · rw [if_neg hx] at h
      cases h
      simpa using hx

lemma dropWhile_eq_self_of {α} {p : α → Bool} {l : List α}
    (h : ∀ a t, l = a :: t → p a = false) : l.dropWhile p = l := by
  cases l with
  | nil => rfl
  | cons a t =>
    rw [List.dropWhile_cons, if_neg]
    simp [h a t rfl]

lemma jsTrim_eq_self (s : String)
    (h1 : ∀ a t, s.toList = a :: t → isJsWs a = false)
    (h2 : ∀ a t, s.toList.reverse = a :: t → isJsWs a = false) : jsTrim s = s := by
  unfold jsTrim
  rw [dropWhile_eq_self_of h1, dropWhile_eq_self_of h2, List.reverse_reverse]
  rfl

lemma jsTrim_idem (s : String) : jsTrim (jsTrim s) = jsTrim s := by
  apply jsTrim_eq_self
  · intro a t h
    have htl : (jsTrim s).toList =
        ((s.toList.dropWhile isJsWs).reverse.dropWhile isJsWs).reverse := rfl
    rw [htl] at h
    have hsuf : (s.toList.dropWhile isJsWs).reverse.dropWhile isJsWs <:+
        (s.toList.dropWhile isJsWs).reverse := List.dropWhile_suffix _
    have hpre : ((s.toList.dropWhile isJsWs).reverse.dropWhile isJsWs).reverse <+:
        s.toList.dropWhile isJsWs := by
      rw [← List.reverse_suffix, List.reverse_reverse]
      exact hsuf
    obtain ⟨u, hu⟩ := hpre
    rw [h] at hu
    exact dropWhile_head_false hu.symm
  · intro a t h
    have htl : (jsTrim s).toList.reverse =
        (s.toList.dropWhile isJsWs).reverse.dropWhile isJsWs := by
      show (((s.toList.dropWhile isJsWs).reverse.dropWhile isJsWs).reverse).reverse = _
      rw [List.reverse_reverse]
    rw [htl] at h
    exact dropWhile_head_false h

lemma jsTrim_empty : jsTrim "" = "" := rfl

lemma firstNonempty_trim {α} (g : α → String) (l : List α)
    (hg : ∀ x, jsTrim (g x) = g x) : jsTrim (firstNonempty g l) = firstNonempty g l := by
  induction l with
  | nil => rfl
  | cons x xs ih =>
    unfold firstNonempty
    by_cases hx : g x ≠ ""
    · rw [if_pos hx]
      exact hg x
    · rw [if_neg hx]
      exact ih

lemma firstStrKey_trim (ks : List String) (fields : List (String × JValue)) :
    jsTrim (firstStrKey ks fields) = firstStrKey ks fields := by
  induction ks with
  | nil => rfl
  | cons k ks ih =>
    unfold firstStrKey
    cases lookupField fields k with
    | none => exact ih
    | some w =>
      cases w with
      | str s =>
        show jsTrim (if jsTrim s ≠ "" then jsTrim s else firstStrKey ks fields) =
          if jsTrim s ≠ "" then jsTrim s else firstStrKey ks fields
        by_cases hx : jsTrim s ≠ ""
        · rw [if_pos hx]
          exact jsTrim_idem s
        · rw [if_neg hx]
          exact ih
      | null => exact ih
      | bool b => exact ih
      | num m e => exact ih
      | arr xs => exact ih
      | obj fs => exact ih

lemma extractPlainTextF_trim (fuel : Nat) :
    ∀ (v : JValue) (d : Nat), jsTrim (extractPlainTextF fuel v d) = extractPlainTextF fuel v d := by
  induction fuel with
  | zero => intro v d; rfl
  | succ fuel ih =>
    intro v d
    unfold extractPlainTextF
    by_cases hd : 5 < d
    · rw [if_pos hd]
      rfl
    · rw [if_neg hd]
      cases v with
      | null => rfl
      | bool b => rfl
      | num m e => rfl
      | str s => exact jsTrim_idem s
      | arr items => exact firstNonempty_trim _ _ (fun x => ih x (d + 1))
      | obj fields =>
        show jsTrim
            (if firstStrKey textKeys fields ≠ "" then firstStrKey textKeys fields
             else if firstNonempty (fun k =>
                 match lookupField fields k with
                 | some (.arr xs) => extractPlainTextF fuel (.arr xs) (d + 1)
                 | some (.obj fs) => extractPlainTextF fuel (.obj fs) (d + 1)
                 | _ => "") textKeys ≠ "" then
               firstNonempty (fun k =>
                 match lookupField fields k with
                 | some (.arr xs) => extractPlainTextF fuel (.arr xs) (d + 1)
                 | some (.obj fs) => extractPlainTextF fuel (.obj fs) (d + 1)
                 | _ => "") textKeys
             else firstNonempty (fun p => extractPlainTextF fuel p.2 (d + 1)) fields) =
          (if firstStrKey textKeys fields ≠ "" then firstStrKey textKeys fields
           else if firstNonempty (fun k =>
               match lookupField fields k with
               | some (.arr xs) => extractPlainTextF fuel (.arr xs) (d + 1)
               | some (.obj fs) => extractPlainTextF fuel (.obj fs) (d + 1)
               | _ => "") textKeys ≠ "" then
             firstNonempty (fun k =>
               match lookupField fields k with
               | some (.arr xs) => extractPlainTextF fuel (.arr xs) (d + 1)
               | some (.obj fs) => extractPlainTextF fuel (.obj fs) (d + 1)
               | _ => "") textKeys
           else firstNonempty (fun p => extractPlainTextF fuel p.2 (d + 1)) fields)
        by_cases h1 : firstStrKey textKeys fields ≠ ""
        · rw [if_pos h1]
          exact firstStrKey_trim _ _
        · rw [if_neg h1]
          by_cases h2 : firstNonempty (fun k =>
              match lookupField fields k with
              | some (.arr xs) => extractPlainTextF fuel (.arr xs) (d + 1)
              | some (.obj fs) => extractPlainTextF fuel (.obj fs) (d + 1)
              | _ => "") textKeys ≠ ""
          · rw [if_pos h2]
            apply firstNonempty_trim
            intro k
            cases lookupField fields k with
            | none => rfl
            | some w => cases w <;> first | rfl | exact ih _ _
          · rw [if_neg h2]
            exact firstNonempty_trim _ _ (fun x => ih x.2 (d + 1))

lemma extractPlainText_trim (v : JValue) (d : Nat) :
    jsTrim (extractPlainText v d) = extractPlainText v d :=
  extractPlainTextF_trim 7 v d

lemma strToList_append (a b : String) : (a ++ b).toList = a.toList ++ b.toList :=
  String.data_append a b

lemma digitChar_not_ws (n : Nat) : isJsWs (digitChar n) = false := by
  unfold digitChar
  split <;> decide

lemma natDigits_not_ws : ∀ (fuel n : Nat) (c : Char), c ∈ natDigits fuel n → isJsWs c = false := by
  intro fuel
  induction fuel with
  | zero => intro n c h; cases h
  | succ fuel ih =>
    intro n c h
    unfold natDigits at h
    by_cases hn : n < 10
    · rw [if_pos hn] at h
      rw [List.mem_singleton] at h
      rw [h]; exact digitChar_not_ws n
    · rw [if_neg hn] at h
      rcases List.mem_append.mp h with h' | h'
      · exact ih _ _ h'
      · rw [List.mem_singleton] at h'
        rw [h']; exact digitChar_not_ws n

lemma natDigits_ne_nil (fuel n : Nat) : natDigits (fuel + 1) n ≠ [] := by
  unfold natDigits
  by_cases hn : n < 10
  · rw [if_pos hn]; simp
  · rw [if_neg hn]; simp

lemma natToDecimal_head (n : Nat) :
    ∀ a t, (natToDecimal n).toList = a :: t → isJsWs a = false := by
  intro a t h
  have ha : a ∈ natDigits (n + 1) n := by
    rw [show (natToDecimal n).toList = natDigits (n + 1) n from rfl] at h
    rw [h]
    exact List.mem_cons_self a t
  exact natDigits_not_ws _ _ _ ha

lemma natToDecimal_last (n : Nat) :
    ∀ a t, (natToDecimal n).toList.reverse = a :: t → isJsWs a = false := by
  intro a t h
  have ha : a ∈ natDigits (n + 1) n := by
    rw [show (natToDecimal n).toList = natDigits (n + 1) n from rfl] at h
    rw [← List.mem_reverse, h]
    exact List.mem_cons_self a t
  exact natDigits_not_ws _ _ _ ha

lemma intToDecimal_chars (i : Int) : ∀ c ∈ (intToDecimal i).toList, isJsWs c = false := by
  intro c hc
  unfold intToDecimal at hc
  rw [strToList_append] at hc
  rcases List.mem_append.mp hc with h | h
  · by_cases hi : i < 0
    · rw [if_pos hi] at h
      rw [show ("-" : String).toList = ['-'] from rfl, List.mem_singleton] at h
      rw [h]; decide
    · rw [if_neg hi] at h
      cases h
  · exact natDigits_not_ws _ _ _ h

lemma numToString_chars (m e : Int) : ∀ c ∈ (numToString m e).toList, isJsWs c = false := by
  intro c hc
  unfold numToString at hc
  split at hc
  · exact intToDecimal_chars _ _ hc
  · split at hc
    · rw [strToList_append] at hc
      rcases List.mem_append.mp hc with h | h
      · rw [show ("-" : String).toList = ['-'] from rfl, List.mem_singleton] at h
        rw [h]; decide
      · split at h
        · exact natDigits_not_ws _ _ _ h
        · rw [strToList_append, strToList_append] at h
          rcases List.mem_append.mp h with h' | h'
          · rcases List.mem_append.mp h' with h'' | h''
            · exact natDigits_not_ws _ _ _ h''
            · rw [show ("." : String).toList = ['.'] from rfl, List.mem_singleton] at h''
              rw [h'']; decide
          · have h1' : c ∈ List.dropWhile (fun x => decide (x = '0'))
                (List.take (-e).toNat
                  ((natDigits (m.natAbs % 10 ^ (-e).toNat + 1) (m.natAbs % 10 ^ (-e).toNat)).reverse ++
                    List.replicate (-e).toNat '0')) := List.mem_reverse.mp (by simpa using h')
            have h2 := (List.dropWhile_sublist (fun x => decide (x = '0'))).subset h1'
            have h3 := List.take_subset _ _ h2
            rcases List.mem_append.mp h3 with h4 | h4
            · exact natDigits_not_ws _ _ _ (List.mem_reverse.mp h4)
            · rw [(List.mem_replicate.mp h4).2]; decide
    · simp only [] at hc
      split at hc
      · exact natDigits_not_ws _ _ _ hc
      · rw [strToList_append, strToList_append] at hc
        rcases List.mem_append.mp hc with h' | h'
        · rcases List.mem_append.mp h' with h'' | h''
          · exact natDigits_not_ws _ _ _ h''
          · rw [show ("." : String).toList = ['.'] from rfl, List.mem_singleton] at h''
            rw [h'']; decide
        · have h1' : c ∈ List.dropWhile (fun x => decide (x = '0'))
              (List.take (-e).toNat
                ((natDigits (m.natAbs % 10 ^ (-e).toNat + 1) (m.natAbs % 10 ^ (-e).toNat)).reverse ++
                  List.replicate (-e).toNat '0')) := List.mem_reverse.mp (by simpa using h')
          have h2 := (List.dropWhile_sublist (fun x => decide (x = '0'))).subset h1'
          have h3 := List.take_subset _ _ h2
          rcases List.mem_append.mp h3 with h4 | h4
          · exact natDigits_not_ws _ _ _ (List.mem_reverse.mp h4)
          · rw [(List.mem_replicate.mp h4).2]; decide

/-! ## C6 support -/

lemma foldr_esc_split (l : List Char) :
    ∃ m, l.foldr (fun c acc => jsonEscChar c ++ acc) ['"'] = m ++ ['"'] := by
  induction l with
  | nil => exact ⟨[], rfl⟩
  | cons c cs ih =>
    obtain ⟨m, hm⟩ := ih
    exact ⟨jsonEscChar c ++ m, by rw [List.foldr_cons, hm, List.append_assoc]⟩

lemma jsonStringify_head (v : JValue) :
    ∀ a t, (jsonStringify v).toList = a :: t → isJsWs a = false := by
  intro a t h
  cases v with
  | null =>
    rw [show (jsonStringify .null).toList = ['n','u','l','l'] from rfl] at h
    injection h with h1 _
    rw [← h1]; decide
  | bool b =>
    cases b with
    | false =>
      rw [show (jsonStringify (.bool false)).toList = ['f','a','l','s','e'] from rfl] at h
      injection h with h1 _
      rw [← h1]; decide
    | true =>
      rw [show (jsonStringify (.bool true)).toList = ['t','r','u','e'] from rfl] at h
      injection h with h1 _
      rw [← h1]; decide
  | num m e =>
    refine numToString_chars m e a ?_
    show a ∈ (jsonStringify (.num m e)).toList
    rw [h]
    exact List.mem_cons_self a t
  | str s =>
    rw [show (jsonStringify (.str s)).toList =
        '"' :: s.toList.foldr (fun c acc => jsonEscChar c ++ acc) ['"'] from rfl] at h
    injection h with h1 _
    rw [← h1]; decide
  | arr xs =>
    rw [show (jsonStringify (.arr xs)).toList =
        '[' :: ((String.intercalate "," (jsonStringifyElems xs)).toList ++ [']']) from rfl] at h
    injection h with h1 _
    rw [← h1]; decide
  | obj fs =>
    rw [show (jsonStringify (.obj fs)).toList =
        '\x7b' :: ((String.intercalate "," (jsonStringifyFields fs)).toList ++ ['\x7d']) from rfl] at h
    injection h with h1 _
    rw [← h1]; decide

lemma jsonStringify_last (v : JValue) :
    ∀ a t, (jsonStringify v).toList.reverse = a :: t → isJsWs a = false := by
  intro a t h
  cases v with
  | null =>
    rw [show (jsonStringify .null).toList.reverse = ['l','l','u','n'] from rfl] at h
    injection h with h1 _
    rw [← h1]; decide
  | bool b =>
    cases b with
    | false =>
      rw [show (jsonStringify (.bool false)).toList.reverse = ['e','s','l','a','f'] from rfl] at h
      injection h with h1 _
      rw [← h1]; decide
    | true =>
      rw [show (jsonStringify (.bool true)).toList.reverse = ['e','u','r','t'] from rfl] at h
      injection h with h1 _
      rw [← h1]; decide
  | num m e =>
    refine numToString_chars m e a (List.mem_reverse.mp ?_)
    show a ∈ (jsonStringify (.num m e)).toList.reverse
    rw [h]
    exact List.mem_cons_self a t
  | str s =>
    obtain ⟨m, hm⟩ := foldr_esc_split s.toList
    rw [show (jsonStringify (.str s)).toList =
        '"' :: s.toList.foldr (fun c acc => jsonEscChar c ++ acc) ['"'] from rfl, hm] at h
    simp only [List.reverse_cons, List.reverse_append, List.reverse_nil, List.nil_append,
      List.cons_append, List.append_assoc] at h
    injection h with h1 _
    rw [← h1]; decide
  | arr xs =>
    rw [show (jsonStringify (.arr xs)).toList =
        '[' :: ((String.intercalate "," (jsonStringifyElems xs)).toList ++ [']']) from rfl] at h
    simp only [List.reverse_cons, List.reverse_append, List.reverse_nil, List.nil_append,
      List.cons_append, List.append_assoc] at h
    injection h with h1 _
    rw [← h1]; decide
  | obj fs =>
    rw [show (jsonStringify (.obj fs)).toList =
        '\x7b' :: ((String.intercalate "," (jsonStringifyFields fs)).toList ++ ['\x7d']) from rfl] at h
    simp only [List.reverse_cons, List.reverse_append, List.reverse_nil, List.nil_append,
      List.cons_append, List.append_assoc] at h
    injection h with h1 _
    rw [← h1]; decide

lemma jsTrim_stringify (v : JValue) : jsTrim (jsonStringify v) = jsonStringify v :=
  jsTrim_eq_self _ (jsonStringify_head v) (jsonStringify_last v)

lemma hlFallbackText_trim (v : JValue) : jsTrim (hlFallbackText v) = hlFallbackText v := by
  show jsTrim (if extractPlainText (hlBase v) 0 ≠ "" then extractPlainText (hlBase v) 0
      else extractPlainText v 0) =
    (if extractPlainText (hlBase v) 0 ≠ "" then extractPlainText (hlBase v) 0
      else extractPlainText v 0)
  by_cases hx : extractPlainText (hlBase v) 0 ≠ ""
  · rw [if_pos hx]
    exact extractPlainText_trim _ _
  · rw [if_neg hx]
    exact extractPlainText_trim _ _

lemma normalize_fallback (t : String) :
    normalizeStandardPayload (fallbackObj t) = some (fallbackObj t) := by
  obtain ⟨l⟩ := t
  cases l with
  | nil => rfl
  | cons c cs => rfl

lemma stdRenderOf_fallback (t : String) :
    stdRenderOf (fallbackObj t) = ⟨"", "Unknown", t, "", false⟩ := by
  obtain ⟨l⟩ := t
  cases l with
  | nil => rfl
  | cons c cs => rfl

lemma fallback_resultField (t : String) : resultFieldIsString (fallbackObj t) = false := rfl

set_option maxHeartbeats 1000000 in
lemma normalize_shape (p q : JValue) (h : normalizeStandardPayload p = some q) :
    ∃ n c d f, q = .obj [("name", .str n), ("category", .str c),
      ("description", .str d), ("fun_fact", .str f)] := by
  cases p with
  | null => exact Option.noConfusion h
  | bool b => exact Option.noConfusion h
  | num m e => exact Option.noConfusion h
  | str u => exact Option.noConfusion h
  | arr xs => exact Option.noConfusion h
  | obj fs =>
    unfold normalizeStandardPayload at h
    simp only [] at h
    rw [if_neg (by simp)] at h
    split at h
    · injection h with h'
      exact ⟨_, _, _, _, h'.symm⟩
    · cases h

lemma normalize_resultField (p q : JValue) (h : normalizeStandardPayload p = some q) :
    resultFieldIsString q = false := by
  obtain ⟨n, c, d, f, hq⟩ := normalize_shape p q h
  rw [hq]
  rfl

lemma buildFallback_unparsed (t : String) (htrim : jsTrim t = t) (hne : t ≠ "")
    (hparse : (tryParseJSON t).bind normalizeStandardPayload = none) :
    buildFallbackStandardPayload t = some (fallbackObj t) := by
  unfold buildFallbackStandardPayload
  simp only []
  rw [htrim, if_neg hne]
  cases htp : tryParseJSON t with
  | none => rfl
  | some w =>
    rw [htp] at hparse
    have hp' : normalizeStandardPayload w = none := hparse
    simp only [hp']
    rfl

lemma buildFallback_normalized (t : String) (htrim : jsTrim t = t) (hne : t ≠ "")
    (q : JValue) (hq : (tryParseJSON t).bind normalizeStandardPayload = some q) :
    buildFallbackStandardPayload t = some q := by
  unfold buildFallbackStandardPayload
  simp only []
  rw [htrim, if_neg hne]
  cases htp : tryParseJSON t with
  | none =>
    rw [htp] at hq
    exact Option.noConfusion hq
  | some w =>
    rw [htp] at hq
    have hq' : normalizeStandardPayload w = some q := hq
    simp only [hq']

lemma hl_std_fallback (s : AppState) (v : JValue) (p p2 : JValue)
    (hs : s.state = .analyzing) (hflow : isHotdogFlowOf s = false)
    (hx : extractResultPayload (hlBase v) 0 = none)
    (hb : buildFallbackStandardPayload (getAnyTextFallback v (hlFallbackText v)) = some p)
    (hr : resultFieldIsString p = false)
    (hcs : ∀ q, normalizeStandardPayload p = some q → q = p2)
    (hcn : normalizeStandardPayload p = none →
      buildFallbackStandardPayload (getAnyTextFallback v (hlFallbackText v)) = some p2) :
    (handleLLMResponse v s).state = .result ∧
    (handleLLMResponse v s).stdRender = some (stdRenderOf p2) ∧
    (handleLLMResponse v s).activeRequest = none := by
  have hw : (!(s.state == UIState.analyzing || s.state == UIState.hdAnalyzing) &&
      s.activeRequest == none) = false := by
    simp [hs]
  have hlp : hlParsed s v = some p := by
    unfold hlParsed
    rw [hx]
    simp only [hflow, Bool.false_eq_true, if_false]
    exact hb
  have hparsed : hlParsedWithEmergency s v = some p := by
    unfold hlParsedWithEmergency
    rw [hlp]
  have hcoerce : hlCoerce s v p = some p2 := by
    unfold hlCoerce
    rw [hflow, hr]
    rw [if_pos (⟨by simp, by simp⟩ : ¬false = true ∧ ¬false = true)]
    cases hnp : normalizeStandardPayload p with
    | some q =>
      simp only [hnp]
      rw [hcs q hnp]
    | none =>
      simp only [hnp]
      exact hcn hnp
  unfold handleLLMResponse
  simp only [hw, Bool.false_eq_true, if_false, hparsed, hcoerce, hflow]
  simp [showResult, setState]

/-- C6 counterexample: from `{"title": true}` no plain text is extractable and
structured extraction fails, so the claim expects the stringified inbound value
`\x7b"title":true\x7d` as the rendered description; instead the stringified text
re-parses, `normalizeStandardPayload` lifts the alternate `title` key into the
name, and the result renders name `"true"` with an empty description. -/
theorem c6_stringify_counterexample :
    extractResultPayload (hlBase c6Value) 0 = none ∧
    hlFallbackText c6Value = "" ∧
    jsonStringify c6Value = "\x7b\"title\":true\x7d" ∧
    (handleLLMResponse c6Value c6State).state = .result ∧
    (handleLLMResponse c6Value c6State).stdRender =
      some { category := "", name := "true", description := "", funFact := "",
             categoryVisible := false } := by
  exact ⟨rfl, rfl, rfl, rfl, rfl⟩

/-- C6 (amended): in a standard-mode analyzing state, when structured
extraction fails: (a) a non-empty extracted plain text that `tryParseJSON`
cannot parse becomes the description of an `Unknown` result with empty
category and fun_fact, rendered on the result screen; (b) when no plain text
is extractable from a non-string value whose compact JSON is neither `\x7b\x7d`
nor `[]`, the message is not dropped — the result screen is shown — but the
stringified value becomes the description only when parse-and-normalize fails
on it; when the stringified value re-parses and normalizes to a payload `q`,
the screen renders `q` (re-normalized), not the stringified text. -/
theorem c6_standard_fallback (s : AppState) (v : JValue)
    (hs : s.state = .analyzing) (hflow : isHotdogFlowOf s = false)
    (hx : extractResultPayload (hlBase v) 0 = none) :
    (hlFallbackText v ≠ "" → tryParseJSON (hlFallbackText v) = none →
      (handleLLMResponse v s).state = .result ∧
      (handleLLMResponse v s).stdRender =
        some ⟨"", "Unknown", hlFallbackText v, "", false⟩ ∧
      (handleLLMResponse v s).activeRequest = none) ∧
    (hlFallbackText v = "" → (∀ u, v ≠ .str u) →
      jsonStringify v ≠ "" → jsonStringify v ≠ "\x7b\x7d" → jsonStringify v ≠ "[]" →
      (handleLLMResponse v s).state = .result ∧
      (handleLLMResponse v s).activeRequest = none ∧
      ((tryParseJSON (jsonStringify v)).bind normalizeStandardPayload = none →
        (handleLLMResponse v s).stdRender =
          some ⟨"", "Unknown", jsonStringify v, "", false⟩) ∧
      (∀ q, (tryParseJSON (jsonStringify v)).bind normalizeStandardPayload = some q →
        (handleLLMResponse v s).stdRender =
          some (stdRenderOf ((normalizeStandardPayload q).getD q)))) := by
  constructor
  · intro hne hparse
    have htr := hlFallbackText_trim v
    have hT : getAnyTextFallback v (hlFallbackText v) = hlFallbackText v := by
      unfold getAnyTextFallback
      rw [htr, if_pos hne]
    have hbind : (tryParseJSON (hlFallbackText v)).bind normalizeStandardPayload = none := by
      rw [hparse]
      rfl
    have hb : buildFallbackStandardPayload (getAnyTextFallback v (hlFallbackText v)) =
        some (fallbackObj (hlFallbackText v)) := by
      rw [hT]
      exact buildFallback_unparsed _ htr hne hbind
    have h := hl_std_fallback s v (fallbackObj (hlFallbackText v)) (fallbackObj (hlFallbackText v))
      hs hflow hx hb (fallback_resultField _)
      (fun q hq => by
        rw [normalize_fallback] at hq
        exact (Option.some.inj hq).symm)
      (fun hn => by
        rw [normalize_fallback] at hn
        exact Option.noConfusion hn)
    refine ⟨h.1, ?_, h.2.2⟩
    rw [h.2.1, stdRenderOf_fallback]
  · intro htext hstr hj1 hj2 hj3
    have hcomp : getAnyCompact v = jsonStringify v := by
      show (if jsonStringify v ≠ "" ∧ jsonStringify v ≠ "\x7b\x7d" ∧ jsonStringify v ≠ "[]"
          then jsonStringify v else "") = jsonStringify v
      rw [if_pos ⟨hj1, hj2, hj3⟩]
    have hT : getAnyTextFallback v (hlFallbackText v) = jsonStringify v := by
      unfold getAnyTextFallback
      rw [htext]
      rw [if_neg (by decide : ¬(jsTrim "" ≠ ""))]
      cases v with
      | str u => exact absurd rfl (hstr u)
      | null => exact hcomp
      | bool b => exact hcomp
      | num m e => exact hcomp
      | arr xs => exact hcomp
      | obj fs => exact hcomp
    cases hbind : (tryParseJSON (jsonStringify v)).bind normalizeStandardPayload with
    | none =>
      have hb : buildFallbackStandardPayload (getAnyTextFallback v (hlFallbackText v)) =
          some (fallbackObj (jsonStringify v)) := by
        rw [hT]
        exact buildFallback_unparsed _ (jsTrim_stringify v) hj1 hbind
      have h := hl_std_fallback s v (fallbackObj (jsonStringify v)) (fallbackObj (jsonStringify v))
        hs hflow hx hb (fallback_resultField _)
        (fun q hq => by
          rw [normalize_fallback] at hq
          exact (Option.some.inj hq).symm)
        (fun hn => by
          rw [normalize_fallback] at hn
          exact Option.noConfusion hn)
      refine ⟨h.1, h.2.2, fun _ => ?_, fun q hq => Option.noConfusion hq⟩
      rw [h.2.1, stdRenderOf_fallback]
    | some q =>
      have hb : buildFallbackStandardPayload (getAnyTextFallback v (hlFallbackText v)) =
          some q := by
        rw [hT]
        exact buildFallback_normalized _ (jsTrim_stringify v) hj1 q hbind
      have hrq : resultFieldIsString q = false := by
        cases htp : tryParseJSON (jsonStringify v) with
        | none =>
          rw [htp] at hbind
          exact Option.noConfusion hbind
        | some w =>
          rw [htp] at hbind
          have hw : normalizeStandardPayload w = some q := hbind
          exact normalize_resultField w q hw
      have h := hl_std_fallback s v q ((normalizeStandardPayload q).getD q)
        hs hflow hx hb hrq
        (fun q' hq' => by
          rw [hq']
          rfl)
        (fun hn => by
          rw [hn, Option.getD_none, hT]
          exact buildFallback_normalized _ (jsTrim_stringify v) hj1 q hbind)
      refine ⟨h.1, h.2.2, fun hn => Option.noConfusion hn, fun q' hq' => ?_⟩
      rw [← Option.some.inj hq']
      exact h.2.1

/-- Witness for C6 at concrete inputs: a plain sentence becomes the
description; for a text-free object the stringified JSON becomes the
description. -/
theorem c6_standard_fallback_witness :
    (handleLLMResponse (.str "The quick fox")
      { initState false false with state := .analyzing, activeRequest := some ⟨.standard⟩ }).state =
      .result ∧
    (handleLLMResponse (.str "The quick fox")
      { initState false false with state := .analyzing, activeRequest := some ⟨.standard⟩ }).stdRender =
      some ⟨"", "Unknown", "The quick fox", "", false⟩ ∧
    (handleLLMResponse (.obj [("meta", .bool true)])
      { initState false false with state := .analyzing, activeRequest := some ⟨.standard⟩ }).stdRender =
      some ⟨"", "Unknown", "\x7b\"meta\":true\x7d", "", false⟩ := by
  have ha := (c6_standard_fallback
      { initState false false with state := .analyzing, activeRequest := some ⟨.standard⟩ }
      (.str "The quick fox") rfl (by decide) rfl).1 (by decide) rfl
  have hb := (c6_standard_fallback
      { initState false false with state := .analyzing, activeRequest := some ⟨.standard⟩ }
      (.obj [("meta", .bool true)]) rfl (by decide) rfl).2 rfl
      (fun u h => JValue.noConfusion h) (by decide) (by decide) (by decide)
  exact ⟨ha.1, ha.2.1, hb.2.2.1 rfl⟩

/-! ## C1 support -/

lemma firstSome_eq_some {α β} (g : α → Option β) :
    ∀ (l : List α) (b : β), firstSome g l = some b → ∃ x, x ∈ l ∧ g x = some b := by
  intro l
  induction l with
  | nil => intro b h; exact Option.noConfusion h
  | cons x xs ih =>
    intro b h
    unfold firstSome at h
    cases hx : g x with
    | some b' =>
      rw [hx] at h
      have hb : b' = b := Option.some.inj h
      exact ⟨x, List.mem_cons_self x xs, by rw [hx, hb]⟩
    | none =>
      rw [hx] at h
      obtain ⟨y, hy, hgy⟩ := ih b h
      exact ⟨y, List.mem_cons_of_mem x hy, hgy⟩

lemma firstSome_isSome {α β} (g : α → Option β) :
    ∀ (l : List α) (x : α) (b : β), x ∈ l → g x = some b → ∃ c, firstSome g l = some c := by
  intro l
  induction l with
  | nil => intro x b hx; exact fun _ => absurd hx (List.not_mem_nil x)
  | cons y ys ih =>
    intro x b hx hgx
    unfold firstSome
    cases hy : g y with
    | some c => exact ⟨c, rfl⟩
    | none =>
      rcases List.mem_cons.mp hx with h | h
      · rw [h] at hgx
        rw [hy] at hgx
        exact Option.noConfusion hgx
      · obtain ⟨c, hc⟩ := ih x b h hgx
        exact ⟨c, hc⟩

lemma extractF_str (fuel : Nat) (s : String) (d : Nat) (hd : ¬5 < d) :
    extractResultPayloadF (fuel + 1) (.str s) d =
      match tryParseJSON s with
      | some w => extractResultPayloadF fuel w (d + 1)
      | none => none := by
  rw [show extractResultPayloadF (fuel + 1) (.str s) d =
      if 5 < d then none
      else (match tryParseJSON s with
        | some w => extractResultPayloadF fuel w (d + 1)
        | none => none) from rfl,
    if_neg hd]

lemma extractF_arr (fuel : Nat) (items : List JValue) (d : Nat) (hd : ¬5 < d) :
    extractResultPayloadF (fuel + 1) (.arr items) d =
      firstSome (fun item => extractResultPayloadF fuel item (d + 1)) items := by
  rw [show extractResultPayloadF (fuel + 1) (.arr items) d =
      if 5 < d then none
      else firstSome (fun item => extractResultPayloadF fuel item (d + 1)) items from rfl,
    if_neg hd]

lemma extractF_obj (fuel : Nat) (fields : List (String × JValue)) (d : Nat) (hd : ¬5 < d) :
    extractResultPayloadF (fuel + 1) (.obj fields) d =
      if isResultPayload (.obj fields) then some (.obj fields)
      else
        firstSome
          (fun k =>
            match lookupField fields k with
            | some w => extractResultPayloadF fuel w (d + 1)
            | none => none)
          wrapperKeys := by
  rw [show extractResultPayloadF (fuel + 1) (.obj fields) d =
      if 5 < d then none
      else
        if isResultPayload (.obj fields) then some (.obj fields)
        else
          firstSome
            (fun k =>
              match lookupField fields k with
              | some w => extractResultPayloadF fuel w (d + 1)
              | none => none)
            wrapperKeys from rfl,
    if_neg hd]

lemma extractF_sound :
    ∀ (fuel : Nat) (v : JValue) (d : Nat) (p : JValue),
      extractResultPayloadF fuel v d = some p → ∃ n, n + d ≤ 5 ∧ Reaches v n p := by
  intro fuel
  induction fuel with
  | zero => intro v d p h; exact Option.noConfusion h
  | succ fuel ih =>
    intro v d p h
    by_cases hd : 5 < d
    · rw [show extractResultPayloadF (fuel + 1) v d = none by
        unfold extractResultPayloadF; rw [if_pos hd]] at h
      exact Option.noConfusion h
    · cases v with
      | null =>
        rw [show extractResultPayloadF (fuel + 1) .null d = none by
          unfold extractResultPayloadF; rw [if_neg hd]] at h
        exact Option.noConfusion h
      | bool b =>
        rw [show extractResultPayloadF (fuel + 1) (.bool b) d = none by
          unfold extractResultPayloadF; rw [if_neg hd]] at h
        exact Option.noConfusion h
      | num m e =>
        rw [show extractResultPayloadF (fuel + 1) (.num m e) d = none by
          unfold extractResultPayloadF; rw [if_neg hd]] at h
        exact Option.noConfusion h
      | str s =>
        rw [extractF_str fuel s d hd] at h
        cases hts : tryParseJSON s with
        | none =>
          rw [hts] at h
          exact Option.noConfusion h
        | some w =>
          rw [hts] at h
          have h'' : extractResultPayloadF fuel w (d + 1) = some p := h
          obtain ⟨n, hn, hr⟩ := ih w (d + 1) p h''
          exact ⟨n + 1, by omega, Reaches.viaString s w p n hts hr⟩
      | arr items =>
        rw [extractF_arr fuel items d hd] at h
        obtain ⟨x, hx, hgx⟩ := firstSome_eq_some _ items p h
        obtain ⟨n, hn, hr⟩ := ih x (d + 1) p hgx
        exact ⟨n + 1, by omega, Reaches.viaItem items x p n hx hr⟩
      | obj fields =>
        rw [extractF_obj fuel fields d hd] at h
        by_cases hres : isResultPayload (.obj fields) = true
        · rw [if_pos hres] at h
          refine ⟨0, by omega, ?_⟩
          rw [← Option.some.inj h]
          exact Reaches.here _ hres
        · rw [if_neg hres] at h
          obtain ⟨k, hk, hgk⟩ := firstSome_eq_some _ wrapperKeys p h
          cases hlk : lookupField fields k with
          | none =>
            rw [hlk] at hgk
            exact Option.noConfusion hgk
          | some w =>
            rw [hlk] at hgk
            have hgk' : extractResultPayloadF fuel w (d + 1) = some p := hgk
            obtain ⟨n, hn, hr⟩ := ih w (d + 1) p hgk'
            exact ⟨n + 1, by omega, Reaches.viaKey fields k w p n hk hlk hr⟩

lemma extractF_complete (v : JValue) (n : Nat) (p : JValue) (h : Reaches v n p) :
    ∀ (fuel d : Nat), n < fuel → n + d ≤ 5 → ∃ q, extractResultPayloadF fuel v d = some q := by
  induction h with
  | here v hres =>
    intro fuel d hf hd
    cases fuel with
    | zero => exact absurd hf (by omega)
    | succ f =>
      cases v with
      | null => exact Bool.noConfusion hres
      | bool b => exact Bool.noConfusion hres
      | num m e => exact Bool.noConfusion hres
      | str u => exact Bool.noConfusion hres
      | arr xs => exact Bool.noConfusion hres
      | obj fields =>
        refine ⟨.obj fields, ?_⟩
        rw [extractF_obj f fields d (by omega), if_pos hres]
  | viaString s w p n hparse hreach ih =>
    intro fuel d hf hd
    cases fuel with
    | zero => exact absurd hf (by omega)
    | succ f =>
      obtain ⟨q, hq⟩ := ih f (d + 1) (by omega) (by omega)
      refine ⟨q, ?_⟩
      rw [extractF_str f s d (by omega), hparse]
      exact hq
  | viaItem items w p n hw hreach ih =>
    intro fuel d hf hd
    cases fuel with
    | zero => exact absurd hf (by omega)
    | succ f =>
      obtain ⟨q, hq⟩ := ih f (d + 1) (by omega) (by omega)
      rw [extractF_arr f items d (by omega)]
      exact firstSome_isSome _ items w q hw hq
  | viaKey fields k w p n hk hlk hreach ih =>
    intro fuel d hf hd
    cases fuel with
    | zero => exact absurd hf (by omega)
    | succ f =>
      rw [extractF_obj f fields d (by omega)]
      by_cases hres : isResultPayload (.obj fields) = true
      · rw [if_pos hres]
        exact ⟨.obj fields, rfl⟩
      · rw [if_neg hres]
        obtain ⟨q, hq⟩ := ih f (d + 1) (by omega) (by omega)
        refine firstSome_isSome _ wrapperKeys k q hk ?_
        rw [hlk]
        exact hq

/-- C1: at depth 0 the extractor succeeds exactly on the values that hold a
recognizable result payload within 5 unwrap steps (wrapper keys, array
elements, JSON-encoded strings): whatever it returns is such a payload
(soundness), any payload reachable within 5 steps makes it succeed
(completeness), and when every reachable payload needs more than 5 steps it
returns no-result. -/
theorem c1_extract_depth_bound (v : JValue) :
    (∀ p, extractResultPayload v 0 = some p → ∃ n, n ≤ 5 ∧ Reaches v n p) ∧
    ((∃ n p, n ≤ 5 ∧ Reaches v n p) → ∃ q, extractResultPayload v 0 = some q) ∧
    ((∀ n p, Reaches v n p → 5 < n) → extractResultPayload v 0 = none) := by
  refine ⟨?_, ?_, ?_⟩
  · intro p h
    obtain ⟨n, hn, hr⟩ := extractF_sound 7 v 0 p h
    exact ⟨n, by omega, hr⟩
  · rintro ⟨n, p, hn, hr⟩
    exact extractF_complete v n p hr 7 0 (by omega) (by omega)
  · intro hall
    cases he : extractResultPayload v 0 with
    | none => rfl
    | some p =>
      obtain ⟨n, hn, hr⟩ := extractF_sound 7 v 0 p he
      exact absurd (hall n p hr) (by omega)

/-- Witness for C1: the Name payload sits two unwrap steps deep (a `data`
key, then a JSON-encoded string), so extraction succeeds; and the value it
returns is reachable within 5 steps. -/
theorem c1_extract_depth_bound_witness :
    (∃ q, extractResultPayload c1Value 0 = some q) ∧
    (∃ n, n ≤ 5 ∧ Reaches c1Value n (.obj [("name", .str "x")])) := by
  have hreach : Reaches c1Value 2 (.obj [("name", .str "x")]) :=
    Reaches.viaKey _ "data" (.str "\x7b\"name\":\"x\"\x7d") _ 1 (by decide) rfl
      (Reaches.viaString _ (.obj [("name", .str "x")]) _ 0 rfl
        (Reaches.here _ rfl))
  have h := c1_extract_depth_bound c1Value
  refine ⟨h.2.1 ⟨2, .obj [("name", .str "x")], by omega, hreach⟩, ?_⟩
  obtain ⟨n, hn, hr⟩ := h.1 (.obj [("name", .str "x")]) rfl
  exact ⟨n, hn, hr⟩
